import Mathlib

set_option autoImplicit false

/-!
Verification development for the `routing` repository (DVrouter.py, LSrouter.py).

The two routing engines are shallowly embedded.  Python dicts are modelled as
association lists (`List (Nat × β)`) with first-match lookup, replace-in-place
insertion (appending fresh keys at the end, as Python 3.7+ dicts do) and
key filtering for deletion; `dictEq` is the extensional equality Python's `==`
implements on dicts.  Router addresses and port numbers are natural numbers,
link costs are naturals, times and sequence numbers are integers (Python ints).
JSON serialisation round-trips (`json.dumps`/`json.loads`) are modelled as the
identity on the already-parsed payload values.
-/

abbrev Addr := Nat
abbrev Port := Nat

/-- First-match lookup in an association list (Python `d[k]` / `d.get(k)`). -/
def lookupD {β : Type} : List (Nat × β) → Nat → Option β
  | [], _ => none
  | e :: rest, k => if e.1 = k then some e.2 else lookupD rest k

/-- Python dict assignment `d[k] = v`: replace in place if present, else append. -/
def insertD {β : Type} : List (Nat × β) → Nat → β → List (Nat × β)
  | [], k, v => [(k, v)]
  | e :: rest, k, v => if e.1 = k then (k, v) :: rest else e :: insertD rest k v

/-- Python `del d[k]` / `d.pop(k, None)`: drop every binding of the key. -/
def eraseD {β : Type} : List (Nat × β) → Nat → List (Nat × β)
  | [], _ => []
  | e :: rest, k => if e.1 = k then eraseD rest k else e :: eraseD rest k

/-- Rebuild a dict by transforming each value (used for the poisoned vectors). -/
def mapValD {β γ : Type} (f : Nat → β → γ) (l : List (Nat × β)) : List (Nat × γ) :=
  l.map (fun e => (e.1, f e.1 e.2))

/-- Extensional dict equality: Python `==` on dicts compares key sets and values. -/
def dictEq {β : Type} [DecidableEq β] (l1 l2 : List (Nat × β)) : Bool :=
  l1.all (fun e => decide (lookupD l2 e.1 = lookupD l1 e.1)) &&
  l2.all (fun e => decide (lookupD l1 e.1 = lookupD l2 e.1))

/-- Deduplication of a key list, modelling the Python `set` used to collect
candidate destinations (iteration order of a set is unspecified anyway). -/
def dedup : List Nat → List Nat
  | [] => []
  | x :: rest => if x ∈ dedup rest then dedup rest else x :: dedup rest

/-- Sentinel infinity of the DV engine (`INFINITY = 16` in DVrouter.py). -/
def INFINITY : Nat := 16

namespace Packet

/-- Packet kind tag `Packet.ROUTING` of the host's packet envelope. -/
def ROUTING : Nat := 1

/-- Packet kind tag for traceroute/data packets (`packet.is_traceroute`). -/
def TRACEROUTE : Nat := 2

end Packet

/-- Packet as seen by the DV engine; `content` is the parsed distance-vector
payload (destination ↦ cost), meaningful for routing packets. -/
structure DVPacket where
  kind : Nat
  src_addr : Addr
  dst_addr : Addr
  content : List (Nat × Nat)
deriving DecidableEq

/-- State of `DVrouter` (DVrouter.py).  `forwarding_table` maps a destination
to `(cost, next hop port)`; the port field is `Option` because the Python code
initialises `min_port = None` before the link loop. -/
structure DVState where
  addr : Addr
  heartbeat_time : Int
  last_time : Int
  forwarding_table : List (Nat × (Nat × Option Port))
  distance_vector : List (Nat × Nat)
  neighbor_vectors : List (Nat × List (Nat × Nat))
  links : List (Nat × (Addr × Nat))
deriving DecidableEq

namespace DVrouter

/-- Cost of reaching `d` through one link entry `(port, (neighbor, link_cost))`:
`link_cost + neighbor_vector.get(d, INFINITY)`, overridden by the direct link
cost when `d` is the link's neighbor (lines 111-118 of DVrouter.py). -/
def dvContrib (s : DVState) (d : Addr) (e : Port × Addr × Nat) : Nat :=
  if d = e.2.1 then e.2.2
  else e.2.2 + (lookupD ((lookupD s.neighbor_vectors e.2.1).getD []) d).getD INFINITY

/-- Running minimum of the per-link loop of `update_distance_vector`:
strictly smaller totals replace the current `(min_cost, min_port)`. -/
def linkFoldAux (s : DVState) (d : Addr) :
    List (Port × Addr × Nat) → Nat × Option Port → Nat × Option Port
  | [], acc => acc
  | e :: rest, acc =>
    if dvContrib s d e < acc.1 then linkFoldAux s d rest (dvContrib s d e, some e.1)
    else linkFoldAux s d rest acc

/-- The `(min_cost, min_port)` computed for destination `d`. -/
def linkFold (s : DVState) (d : Addr) : Nat × Option Port :=
  linkFoldAux s d s.links (INFINITY, none)

/-- Mathematical minimum over all links, as the spec words it. -/
def minOverLinks (s : DVState) (d : Addr) : Nat :=
  s.links.foldr (fun e r => min (dvContrib s d e) r) INFINITY

/-- Candidate destination set `{self} ∪ (∪ neighbor vector keys) ∪ link
neighbors` (lines 99-103 of DVrouter.py); a Python set, so deduplicated. -/
def destinations (s : DVState) : List Addr :=
  dedup (s.addr ::
    (s.neighbor_vectors.foldl (fun acc e => acc ++ e.2.map Prod.fst) [] ++
      s.links.map (fun e => e.2.1)))

/-- The `new_distance_vector` accumulation of the destination loop. -/
def buildDV (s : DVState) : List Addr → List (Nat × Nat) → List (Nat × Nat)
  | [], acc => acc
  | d :: rest, acc =>
    if d = s.addr then buildDV s rest acc
    else if (linkFold s d).1 < INFINITY then
      buildDV s rest (insertD acc d (linkFold s d).1)
    else buildDV s rest acc

/-- The `new_forwarding_table` accumulation of the destination loop. -/
def buildFT (s : DVState) :
    List Addr → List (Nat × (Nat × Option Port)) → List (Nat × (Nat × Option Port))
  | [], acc => acc
  | d :: rest, acc =>
    if d = s.addr then buildFT s rest acc
    else if (linkFold s d).1 < INFINITY then
      buildFT s rest (insertD acc d ((linkFold s d).1, (linkFold s d).2))
    else buildFT s rest acc

/-- `update_distance_vector` (lines 92-131): recompute both tables, install
them only when they differ (Python dict `!=`), return whether they changed. -/
def update_distance_vector (s : DVState) : Bool × DVState :=
  if dictEq (buildDV s (destinations s) [(s.addr, 0)]) s.distance_vector &&
      dictEq (buildFT s (destinations s) []) s.forwarding_table then (false, s)
  else (true, { s with distance_vector := buildDV s (destinations s) [(s.addr, 0)],
                       forwarding_table := buildFT s (destinations s) [] })

/-- Poison-reverse test of line 83: `dest != neighbor and dest in
forwarding_table and forwarding_table[dest][1] == port`. -/
def poisonCond (s : DVState) (port : Port) (neighbor : Addr) (d : Addr) : Bool :=
  decide (d ≠ neighbor) &&
    (match lookupD s.forwarding_table d with
     | some e => decide (e.2 = some port)
     | none => false)

/-- `broadcast_distance_vector` (lines 77-90): one ROUTING packet per link,
carrying the distance vector with poison reverse applied. -/
def broadcast_distance_vector (s : DVState) : List (Option Port × DVPacket) :=
  s.links.map (fun e =>
    (some e.1, ⟨Packet.ROUTING, s.addr, e.2.1,
      mapValD (fun d c => if poisonCond s e.1 e.2.1 d then INFINITY else c)
        s.distance_vector⟩))

/-- `handle_packet` (lines 32-49).  The incoming port is ignored by the code. -/
def handle_packet (s : DVState) (port : Port) (pkt : DVPacket) :
    DVState × List (Option Port × DVPacket) :=
  if pkt.kind = Packet.TRACEROUTE then
    match lookupD s.forwarding_table pkt.dst_addr with
    | some e => (s, [(e.2, pkt)])
    | none => (s, [])
  else
    let s1 := { s with neighbor_vectors := insertD s.neighbor_vectors pkt.src_addr pkt.content }
    let r := update_distance_vector s1
    (r.2, if r.1 then broadcast_distance_vector r.2 else [])

/-- `handle_new_link` (lines 51-58). -/
def handle_new_link (s : DVState) (port : Port) (endpoint : Addr) (cost : Nat) :
    DVState × List (Option Port × DVPacket) :=
  let s1 := { s with links := insertD s.links port (endpoint, cost) }
  let s2 :=
    if (lookupD s1.neighbor_vectors endpoint).isSome then s1
    else { s1 with neighbor_vectors := insertD s1.neighbor_vectors endpoint [] }
  let r := update_distance_vector s2
  (r.2, if r.1 then broadcast_distance_vector r.2 else [])

/-- `handle_remove_link` (lines 60-69): the DV engine keeps its own link
dict, so the entry is still present when the handler runs. -/
def handle_remove_link (s : DVState) (port : Port) :
    DVState × List (Option Port × DVPacket) :=
  match lookupD s.links port with
  | none => (s, [])
  | some link =>
    let s1 := { s with links := eraseD s.links port,
                       neighbor_vectors := eraseD s.neighbor_vectors link.1 }
    let r := update_distance_vector s1
    (r.2, if r.1 then broadcast_distance_vector r.2 else [])

/-- `handle_time` (lines 71-75). -/
def handle_time (s : DVState) (time_ms : Int) :
    DVState × List (Option Port × DVPacket) :=
  if time_ms - s.last_time ≥ s.heartbeat_time then
    let s1 := { s with last_time := time_ms }
    (s1, broadcast_distance_vector s1)
  else (s, [])

/-- Constructor state of `DVrouter.__init__`. -/
def init (addr : Addr) (heartbeat_time : Int) : DVState :=
  { addr := addr, heartbeat_time := heartbeat_time, last_time := 0,
    forwarding_table := [], distance_vector := [(addr, 0)],
    neighbor_vectors := [], links := [] }

end DVrouter

/-- Parsed LS advertisement payload `{src, seq_num, neighbors}`. -/
structure LSAdv where
  src : Addr
  seq : Int
  neighbors : List (Nat × Nat)
deriving DecidableEq

/-- Packet as seen by the LS engine; `content` is the parsed advertisement,
meaningful for routing packets (flooding re-sends it unchanged). -/
structure LSPacket where
  kind : Nat
  src_addr : Addr
  dst_addr : Addr
  content : LSAdv
deriving DecidableEq

/-- Host link object: the two endpoint addresses (`link.e1`, `link.e2`). -/
structure LinkRec where
  e1 : Addr
  e2 : Addr
deriving DecidableEq

/-- Undirected weighted graph as an edge list; an `nx.Graph` where `add_edge`
updates the weight of an existing edge (either orientation) in place. -/
abbrev Graph := List (Nat × Nat × Nat)

/-- `graph.add_edge(u, v, weight := w)` of networkx. -/
def addEdge : Graph → Nat → Nat → Nat → Graph
  | [], u, v, w => [(u, v, w)]
  | e :: rest, u, v, w =>
    if (e.1 = u ∧ e.2.1 = v) ∨ (e.1 = v ∧ e.2.1 = u) then (e.1, e.2.1, w) :: rest
    else e :: addEdge rest u v w

/-- Weight of the undirected edge `{a, b}`, if present. -/
def edgeWeight : Graph → Nat → Nat → Option Nat
  | [], _, _ => none
  | e :: rest, a, b =>
    if (e.1 = a ∧ e.2.1 = b) ∨ (e.1 = b ∧ e.2.1 = a) then some e.2.2
    else edgeWeight rest a b

/-- `update_graph`'s rebuild loop: every `(router, neighbor, cost)` triple of
the LSDB becomes an undirected edge of a fresh graph (lines 78-82). -/
def buildGraph (ls : List (Nat × List (Nat × Nat))) : Graph :=
  ls.foldl (fun g e => e.2.foldl (fun g2 n => addEdge g2 e.1 n.1 n.2) g) []

/-- State of `LSrouter` (LSrouter.py).  `forwarding_table` maps a destination
to `(port, cost)` — note the order, which is the code's, with `cost` the
weight of the first-hop edge. -/
structure LSState where
  addr : Addr
  heartbeat_time : Int
  last_time : Int
  link_state : List (Nat × List (Nat × Nat))
  sequence_numbers : List (Nat × Int)
  graph : Graph
  forwarding_table : List (Nat × (Port × Nat))
  links : List (Nat × LinkRec)
deriving DecidableEq

/-- Shortest-path map: destination ↦ (distance, path from the source). -/
abbrev PathMap := List (Nat × (Nat × List Nat))

namespace LSrouter

/-- `get_port_for_neighbor` (lines 127-132): first port whose registered link
has the neighbor as an endpoint. -/
def get_port_for_neighbor (links : List (Nat × LinkRec)) (neighbor : Addr) : Option Port :=
  match links with
  | [] => none
  | e :: rest =>
    if e.2.e1 = neighbor ∨ e.2.e2 = neighbor then some e.1
    else get_port_for_neighbor rest neighbor

/-- One directed relaxation step of the shortest-path computation. -/
def relaxDir (dm : PathMap) (u v w : Nat) : PathMap :=
  match lookupD dm u with
  | none => dm
  | some du =>
    match lookupD dm v with
    | some dv2 => if du.1 + w < dv2.1 then insertD dm v (du.1 + w, du.2 ++ [v]) else dm
    | none => insertD dm v (du.1 + w, du.2 ++ [v])

/-- Relax every stored edge in both directions once. -/
def relaxAll (es : Graph) (dm : PathMap) : PathMap :=
  es.foldl (fun m e => relaxDir (relaxDir m e.1 e.2.1 e.2.2) e.2.1 e.1 e.2.2) dm

/-- Iterated relaxation rounds (fuel decreasing). -/
def relaxRounds (g : Graph) : Nat → PathMap → PathMap
  | 0, dm => dm
  | n + 1, dm => relaxRounds g n (relaxAll g dm)

/-- Modelled from the spec: `nx.single_source_dijkstra_path` is an external
library call (the spec's design notes direct an implementer to "reimplement
Dijkstra directly over an adjacency-map representation").  With non-negative
weights, `2 * |edges|` rounds of Bellman-Ford relaxation compute the same
distance map together with one shortest path per reachable node, each path
starting at the source. -/
def dijkstraPaths (g : Graph) (src : Nat) : PathMap :=
  relaxRounds g (2 * g.length) [(src, (0, [src]))]

/-- Forwarding-table accumulation of `update_forwarding_table` (lines 88-97):
for every path of length ≥ 2 the next hop is the second node, the entry is
`(port for next hop, weight of the first-hop edge)`, skipped when the next
hop has no registered port.  The `getD 0` on the weight is unreachable: the
edge from the source to the second path node is always in the graph (Python
would raise `KeyError` otherwise). -/
def deriveAux (g : Graph) (links : List (Nat × LinkRec)) (addr : Addr) :
    PathMap → List (Nat × (Port × Nat)) → List (Nat × (Port × Nat))
  | [], ft => ft
  | e :: rest, ft =>
    match e.2.2 with
    | _ :: next_hop :: _ =>
      match get_port_for_neighbor links next_hop with
      | some port =>
        deriveAux g links addr rest
          (insertD ft e.1 (port, (edgeWeight g addr next_hop).getD 0))
      | none => deriveAux g links addr rest ft
    | _ => deriveAux g links addr rest ft

/-- The whole forwarding table derived from a graph and the link registry. -/
def deriveFT (g : Graph) (links : List (Nat × LinkRec)) (addr : Addr) :
    List (Nat × (Port × Nat)) :=
  deriveAux g links addr (dijkstraPaths g addr) []

/-- `update_forwarding_table` (lines 85-99): clear and rebuild the table. -/
def update_forwarding_table (s : LSState) : LSState :=
  { s with forwarding_table := deriveFT s.graph s.links s.addr }

/-- `update_graph` (lines 76-83): rebuild the graph from the LSDB, then the
forwarding table. -/
def update_graph (s : LSState) : LSState :=
  update_forwarding_table { s with graph := buildGraph s.link_state }

/-- Increment of the router's own sequence number
(`self.sequence_numbers[self.addr] += 1`).  The own entry exists in every
reachable state (set at construction, never deleted); Python would raise
`KeyError` otherwise, so the `getD 0` arm is dead. -/
def incrOwn (s : LSState) : List (Nat × Int) :=
  insertD s.sequence_numbers s.addr ((lookupD s.sequence_numbers s.addr).getD 0 + 1)

/-- `broadcast_link_state` (lines 101-116) with the default `content=None`:
originate a fresh advertisement and send it to every resolvable neighbor. -/
def broadcast_link_state (s : LSState) : List (Port × LSPacket) :=
  let info : LSAdv :=
    ⟨s.addr, (lookupD s.sequence_numbers s.addr).getD 0,
      (lookupD s.link_state s.addr).getD []⟩
  ((lookupD s.link_state s.addr).getD []).filterMap (fun e =>
    match get_port_for_neighbor s.links e.1 with
    | some p => some (p, ⟨Packet.ROUTING, s.addr, e.1, info⟩)
    | none => none)

/-- `flood` (lines 118-125): forward the raw advertisement to every resolvable
neighbor except on the excluded (incoming) port. -/
def flood (s : LSState) (content : LSAdv) (exclude : Port) : List (Port × LSPacket) :=
  ((lookupD s.link_state s.addr).getD []).filterMap (fun e =>
    match get_port_for_neighbor s.links e.1 with
    | some p =>
      if p ≠ exclude then some (p, ⟨Packet.ROUTING, s.addr, e.1, content⟩) else none
    | none => none)

/-- Intermediate state of the accepting branch of `handle_packet` (lines
35-37): record the advertised sequence number and replace the LSDB entry. -/
def acceptState (s : LSState) (a : LSAdv) : LSState :=
  { s with sequence_numbers := insertD s.sequence_numbers a.src a.seq,
           link_state := insertD s.link_state a.src a.neighbors }

/-- `handle_packet` (lines 27-45). -/
def handle_packet (s : LSState) (port : Port) (pkt : LSPacket) :
    LSState × List (Port × LSPacket) :=
  if pkt.kind = Packet.ROUTING then
    if pkt.content.seq > (lookupD s.sequence_numbers pkt.content.src).getD (-1) then
      let s2 := update_graph (acceptState s pkt.content)
      (s2, flood s2 pkt.content port)
    else (s, [])
  else if pkt.kind = Packet.TRACEROUTE then
    match lookupD s.forwarding_table pkt.dst_addr with
    | some e => (s, [(e.1, pkt)])
    | none => (s, [])
  else (s, [])

/-- `handle_new_link` (lines 47-53): record both directions in the LSDB,
bump the own sequence number, broadcast; the graph is not rebuilt here. -/
def handle_new_link (s : LSState) (port : Port) (endpoint : Addr) (cost : Nat) :
    LSState × List (Port × LSPacket) :=
  let selfNbrs := (lookupD s.link_state s.addr).getD []
  let ls1 := insertD s.link_state s.addr (insertD selfNbrs endpoint cost)
  let endNbrs := (lookupD ls1 endpoint).getD []
  let ls2 := insertD ls1 endpoint (insertD endNbrs s.addr cost)
  let s1 := { s with link_state := ls2, sequence_numbers := incrOwn s }
  (s1, broadcast_link_state s1)

/-- First deletion of the `handle_remove_link` loop body (line 61):
`del neighbors[e]`, i.e. remove the stale neighbor from the own LSDB entry. -/
def removeFirst (addr ee : Nat) (ls : List (Nat × List (Nat × Nat))) :
    List (Nat × List (Nat × Nat)) :=
  match lookupD ls addr with
  | some m => insertD ls addr (eraseD m ee)
  | none => ls

/-- Second deletion of the loop body (lines 63-64):
`link_state[neighbor].pop(addr, None)`, removing the reverse direction. -/
def removeSecond (addr ee : Nat) (ls1 : List (Nat × List (Nat × Nat))) :
    List (Nat × List (Nat × Nat)) :=
  match lookupD ls1 ee with
  | some m => insertD ls1 ee (eraseD m addr)
  | none => ls1

/-- Loop body of `handle_remove_link` (lines 59-64): when the snapshot
neighbor `e` no longer resolves to a registered port, delete it from the own
LSDB entry and pop the reverse entry `LSDB[e][addr]`. -/
def removeStep (links : List (Nat × LinkRec)) (addr : Addr)
    (ls : List (Nat × List (Nat × Nat))) (e : Nat × Nat) :
    List (Nat × List (Nat × Nat)) :=
  if (get_port_for_neighbor links e.1).isNone then
    removeSecond addr e.1 (removeFirst addr e.1 ls)
  else ls

/-- `handle_remove_link` (lines 55-67): drop every LSDB[self] neighbor that no
longer resolves to a registered port, together with its reverse entry, bump
the own sequence number, rebuild graph and table, broadcast. -/
def handle_remove_link (s : LSState) (port : Port) :
    LSState × List (Port × LSPacket) :=
  let nbrs := (lookupD s.link_state s.addr).getD []
  let ls2 := nbrs.foldl (removeStep s.links s.addr) s.link_state
  let s1 := { s with link_state := ls2, sequence_numbers := incrOwn s }
  let s2 := update_graph s1
  (s2, broadcast_link_state s2)

/-- `handle_time` (lines 69-74). -/
def handle_time (s : LSState) (time_ms : Int) : LSState × List (Port × LSPacket) :=
  if time_ms - s.last_time ≥ s.heartbeat_time then
    let s1 := { s with last_time := time_ms, sequence_numbers := incrOwn s }
    (s1, broadcast_link_state s1)
  else (s, [])

/-- Modelled from the spec: the link registry (`router.py`, not under src/) is
owned by the host, which registers the new link on its port before the engine
handler runs (the handler's own broadcast already resolves the new neighbor's
port). -/
def on_link_up (s : LSState) (port : Port) (endpoint : Addr) (cost : Nat) :
    LSState × List (Port × LSPacket) :=
  handle_new_link { s with links := insertD s.links port ⟨s.addr, endpoint⟩ }
    port endpoint cost

/-- Modelled from the spec: on link-down the host unregisters the port before
the engine handler runs — spec 4.2 removes exactly the LSDB[self] neighbors
"no longer resolvable to an active port". -/
def on_link_down (s : LSState) (port : Port) : LSState × List (Port × LSPacket) :=
  handle_remove_link { s with links := eraseD s.links port } port

/-- Constructor state of `LSrouter.__init__`. -/
def init (addr : Addr) (heartbeat_time : Int) : LSState :=
  { addr := addr, heartbeat_time := heartbeat_time, last_time := 0,
    link_state := [(addr, [])], sequence_numbers := [(addr, 0)], graph := [],
    forwarding_table := [], links := [] }

end LSrouter

/-- Forwarding-table sanity of the DV engine, phrased through lookups: every
entry's cost is the distance-vector entry for the same destination and its
port is a currently registered link. -/
def dvInv (s : DVState) : Prop :=
  ∀ d c po, lookupD s.forwarding_table d = some (c, po) →
    lookupD s.distance_vector d = some c ∧
      ∃ q, po = some q ∧ lookupD s.links q ≠ none

/-- Forwarding-table sanity of the LS engine: every entry's port is a
currently registered link, and its cost is the weight of the graph edge from
the router to the entry's next hop (the neighbor the port resolves to). -/
def lsInv (s : LSState) : Prop :=
  ∀ d q c, lookupD s.forwarding_table d = some (q, c) →
    lookupD s.links q ≠ none ∧
      ∃ n, LSrouter.get_port_for_neighbor s.links n = some q ∧
        edgeWeight s.graph s.addr n = some c

/-- Observable sequence number the LS engine records for a router, with the
code's own default of -1 for unknown origins. -/
def seqOf (s : LSState) (r : Addr) : Int :=
  (lookupD s.sequence_numbers r).getD (-1)

/-- Soundness shape of one shortest-path map entry `(node, (dist, path))`:
the path starts at the source, and a path of length ≥ 2 continues with a node
adjacent to the source (the relaxation only ever extends stored paths along
graph edges). -/
def pathOk (g : Graph) (src : Nat) (e : Nat × (Nat × List Nat)) : Prop :=
  ∃ t, e.2.2 = src :: t ∧ (t = [] → e.1 = src) ∧
    ∀ n t2, t = n :: t2 → edgeWeight g src n ≠ none

/-! Concrete states reached by running the embedded handlers from the
constructor states; used to instantiate witnesses and counterexamples. -/

/-- Fresh DV router 0. -/
def dvA : DVState := DVrouter.init 0 5

/-- DV router 0 after link-up on port 1 to neighbor 1 with cost 1. -/
def dvB : DVState := (DVrouter.handle_new_link dvA 1 1 1).1

/-- DV router 0 after additionally receiving neighbor 1's vector advertising
itself at 0, router 0 at 1 and router 2 at 1 (a 0-1-2 chain). -/
def dvC : DVState :=
  (DVrouter.handle_packet dvB 1 ⟨Packet.ROUTING, 1, 0, [(1, 0), (0, 1), (2, 1)]⟩).1

/-- Fresh LS router 0. -/
def lsA : LSState := LSrouter.init 0 5

/-- LS router 0 after link-up on port 1 to neighbor 1 with cost 1. -/
def lsB : LSState := (LSrouter.on_link_up lsA 1 1 1).1

/-- LS router 0 after additionally accepting neighbor 1's advertisement with
sequence number 5 and neighbor map {0: 1, 2: 1} (a 0-1-2 chain). -/
def lsChainState : LSState :=
  (LSrouter.handle_packet lsB 1 ⟨Packet.ROUTING, 1, 0, ⟨1, 5, [(0, 1), (2, 1)]⟩⟩).1

/-- LS router 0 directly after a link-up on port 1 to neighbor 2 with cost 5. -/
def lsFreshLink : LSState := (LSrouter.on_link_up lsA 1 2 5).1

/-! Basic lemmas about the association-list dictionary operations. -/

theorem lookupD_insertD_self {β : Type} (l : List (Nat × β)) (k : Nat) (v : β) :
    lookupD (insertD l k v) k = some v := by
  induction l with
  | nil => simp [insertD, lookupD]
  | cons e rest ih =>
    by_cases h : e.1 = k
    · simp [insertD, h, lookupD]
    · simp [insertD, h, lookupD, ih]

theorem lookupD_insertD_ne {β : Type} (l : List (Nat × β)) (k k2 : Nat) (v : β)
    (h : k2 ≠ k) : lookupD (insertD l k v) k2 = lookupD l k2 := by
  have hk : ¬ (k = k2) := fun hh => h hh.symm
  induction l with
  | nil => simp [insertD, lookupD, hk]
  | cons e rest ih =>
    by_cases he : e.1 = k
    · simp only [insertD, if_pos he, lookupD]
      rw [if_neg hk, if_neg (by rw [he]; exact hk)]
    · simp only [insertD, if_neg he, lookupD]
      by_cases he2 : e.1 = k2
      · rw [if_pos he2, if_pos he2]
      · rw [if_neg he2, if_neg he2, ih]

theorem lookupD_eraseD_self {β : Type} (l : List (Nat × β)) (k : Nat) :
    lookupD (eraseD l k) k = none := by
  induction l with
  | nil => rfl
  | cons e rest ih =>
    by_cases h : e.1 = k
    · simpa [eraseD, h] using ih
    · simpa [eraseD, h, lookupD] using ih

theorem lookupD_eraseD_ne {β : Type} (l : List (Nat × β)) (k k2 : Nat) (h : k2 ≠ k) :
    lookupD (eraseD l k) k2 = lookupD l k2 := by
  induction l with
  | nil => rfl
  | cons e rest ih =>
    by_cases he : e.1 = k
    · have hne : ¬ (e.1 = k2) := by rw [he]; exact fun hh => h hh.symm
      simp only [eraseD, if_pos he, lookupD, if_neg hne]
      exact ih
    · simp only [eraseD, if_neg he, lookupD]
      by_cases he2 : e.1 = k2
      · rw [if_pos he2, if_pos he2]
      · rw [if_neg he2, if_neg he2, ih]

theorem lookupD_some_mem {β : Type} {l : List (Nat × β)} {k : Nat} {v : β}
    (h : lookupD l k = some v) : (k, v) ∈ l := by
  induction l with
  | nil => simp [lookupD] at h
  | cons e rest ih =>
    by_cases he : e.1 = k
    · rw [lookupD, if_pos he] at h
      obtain ⟨a, b⟩ := e
      simp only at he
      subst he
      cases Option.some.inj h
      exact List.mem_cons_self _ _
    · rw [lookupD, if_neg he] at h
      exact List.mem_cons_of_mem _ (ih h)

theorem mem_lookupD_isSome {β : Type} {l : List (Nat × β)} {k : Nat} {v : β}
    (h : (k, v) ∈ l) : lookupD l k ≠ none := by
  induction l with
  | nil => simp at h
  | cons e rest ih =>
    rcases List.mem_cons.mp h with h1 | h2
    · simp [lookupD, ← h1]
    · by_cases he : e.1 = k
      · simp [lookupD, he]
      · simpa [lookupD, he] using ih h2

theorem lookupD_insertD_isSome {β : Type} {l : List (Nat × β)} {k : Nat}
    (k2 : Nat) (v : β) (h : lookupD l k ≠ none) :
    lookupD (insertD l k2 v) k ≠ none := by
  by_cases hk : k = k2
  · subst hk
    simp [lookupD_insertD_self]
  · rwa [lookupD_insertD_ne _ _ _ _ hk]

theorem mem_insertD {β : Type} {l : List (Nat × β)} {k : Nat} {v : β}
    {e : Nat × β} (h : e ∈ insertD l k v) : e = (k, v) ∨ e ∈ l := by
  induction l with
  | nil => simpa [insertD] using h
  | cons e2 rest ih =>
    by_cases he : e2.1 = k
    · simp only [insertD, if_pos he] at h
      rcases List.mem_cons.mp h with h1 | h1
      · exact Or.inl h1
      · exact Or.inr (List.mem_cons_of_mem _ h1)
    · simp only [insertD, if_neg he] at h
      rcases List.mem_cons.mp h with h1 | h1
      · exact Or.inr (List.mem_cons.mpr (Or.inl h1))
      · rcases ih h1 with h2 | h2
        · exact Or.inl h2
        · exact Or.inr (List.mem_cons_of_mem _ h2)

theorem dictEq_iff {β : Type} [DecidableEq β] (l1 l2 : List (Nat × β)) :
    dictEq l1 l2 = true ↔ ∀ k, lookupD l1 k = lookupD l2 k := by
  constructor
  · intro h k
    rw [dictEq] at h
    simp only [Bool.and_eq_true] at h
    obtain ⟨h1, h2⟩ := h
    rw [List.all_eq_true] at h1
    rw [List.all_eq_true] at h2
    cases hl1 : lookupD l1 k with
    | some v =>
      have hm := lookupD_some_mem hl1
      have := of_decide_eq_true (h1 _ hm)
      simpa [hl1] using this.symm
    | none =>
      cases hl2 : lookupD l2 k with
      | some v =>
        have hm := lookupD_some_mem hl2
        have := of_decide_eq_true (h2 _ hm)
        simp_all
      | none => rfl
  · intro h
    rw [dictEq]
    simp only [Bool.and_eq_true]
    constructor <;> rw [List.all_eq_true] <;> intro e _ <;>
      exact decide_eq_true (by rw [h e.1])

theorem mem_dedup {l : List Nat} {a : Nat} : a ∈ dedup l ↔ a ∈ l := by
  induction l with
  | nil => simp [dedup]
  | cons x rest ih =>
    by_cases h : x ∈ dedup rest
    · simp [dedup, h, ih]
      intro ha
      subst ha
      exact ih.mp h
    · simp [dedup, h, List.mem_cons, ih]

theorem dedup_nodup (l : List Nat) : (dedup l).Nodup := by
  induction l with
  | nil => simp [dedup]
  | cons x rest ih =>
    by_cases h : x ∈ dedup rest
    · simpa [dedup, h] using ih
    · simp only [dedup, if_neg h]
      exact List.nodup_cons.mpr ⟨h, ih⟩

/-! Lemmas about the DV engine's recomputation. -/

namespace DVrouter

theorem buildDV_cons (s : DVState) (x : Addr) (rest : List Addr) (acc : List (Nat × Nat)) :
    buildDV s (x :: rest) acc =
      if x = s.addr then buildDV s rest acc
      else if (linkFold s x).1 < INFINITY then
        buildDV s rest (insertD acc x (linkFold s x).1)
      else buildDV s rest acc := rfl

theorem buildFT_cons (s : DVState) (x : Addr) (rest : List Addr)
    (acc : List (Nat × (Nat × Option Port))) :
    buildFT s (x :: rest) acc =
      if x = s.addr then buildFT s rest acc
      else if (linkFold s x).1 < INFINITY then
        buildFT s rest (insertD acc x ((linkFold s x).1, (linkFold s x).2))
      else buildFT s rest acc := rfl

theorem linkFoldAux_port (s : DVState) (d : Addr) (l : List (Port × Addr × Nat))
    (hl : ∀ e ∈ l, e ∈ s.links) (acc : Nat × Option Port)
    (hacc : acc.1 < INFINITY → ∃ q, acc.2 = some q ∧ lookupD s.links q ≠ none) :
    (linkFoldAux s d l acc).1 < INFINITY →
      ∃ q, (linkFoldAux s d l acc).2 = some q ∧ lookupD s.links q ≠ none := by
  induction l generalizing acc with
  | nil => exact hacc
  | cons e rest ih =>
    intro hres
    by_cases hc : dvContrib s d e < acc.1
    · rw [linkFoldAux, if_pos hc] at hres ⊢
      refine ih (fun x hx => hl x (List.mem_cons_of_mem _ hx)) _ ?_ hres
      intro _
      exact ⟨e.1, rfl, mem_lookupD_isSome (hl e (List.mem_cons_self _ _))⟩
    · rw [linkFoldAux, if_neg hc] at hres ⊢
      exact ih (fun x hx => hl x (List.mem_cons_of_mem _ hx)) acc hacc hres

theorem linkFold_port (s : DVState) (d : Addr) (h : (linkFold s d).1 < INFINITY) :
    ∃ q, (linkFold s d).2 = some q ∧ lookupD s.links q ≠ none :=
  linkFoldAux_port s d s.links (fun _ hx => hx) (INFINITY, none)
    (fun hh => absurd hh (lt_irrefl _)) h

theorem foldr_min_le {α : Type} (f : α → Nat) (l : List α) (a : Nat) :
    l.foldr (fun e r => min (f e) r) a ≤ a := by
  induction l with
  | nil => exact le_refl a
  | cons e rest ih => exact le_trans (Nat.min_le_right _ _) ih

theorem foldr_min_init {α : Type} (f : α → Nat) (l : List α) (c a : Nat) :
    l.foldr (fun e r => min (f e) r) (min c a) =
      min c (l.foldr (fun e r => min (f e) r) a) := by
  induction l with
  | nil => rfl
  | cons e rest ih =>
    simp only [List.foldr, ih]
    rw [Nat.min_left_comm]

theorem linkFoldAux_fst (s : DVState) (d : Addr) (l : List (Port × Addr × Nat))
    (acc : Nat × Option Port) :
    (linkFoldAux s d l acc).1 = l.foldr (fun e r => min (dvContrib s d e) r) acc.1 := by
  induction l generalizing acc with
  | nil => rfl
  | cons e rest ih =>
    simp only [List.foldr]
    by_cases hc : dvContrib s d e < acc.1
    · rw [linkFoldAux, if_pos hc, ih]
      have h2 := foldr_min_init (fun e => dvContrib s d e) rest (dvContrib s d e) acc.1
      rw [Nat.min_eq_left hc.le] at h2
      exact h2
    · rw [linkFoldAux, if_neg hc, ih]
      exact (Nat.min_eq_right (le_trans (foldr_min_le _ _ _) (Nat.not_lt.mp hc))).symm

theorem linkFold_eq_minOverLinks (s : DVState) (d : Addr) :
    (linkFold s d).1 = minOverLinks s d :=
  linkFoldAux_fst s d s.links (INFINITY, none)

theorem buildDV_lookup (s : DVState) (L : List Addr) (acc : List (Nat × Nat)) (d : Addr)
    (hL : L.Nodup) :
    lookupD (buildDV s L acc) d =
      if d ≠ s.addr ∧ d ∈ L ∧ (linkFold s d).1 < INFINITY then some (linkFold s d).1
      else lookupD acc d := by
  induction L generalizing acc with
  | nil => simp [buildDV]
  | cons x rest ih =>
    obtain ⟨hx, hrest⟩ := List.nodup_cons.mp hL
    by_cases hxa : x = s.addr
    · rw [buildDV_cons, if_pos hxa, ih _ hrest]
      refine if_congr ?_ rfl rfl
      constructor
      · rintro ⟨h1, h2, h3⟩
        exact ⟨h1, List.mem_cons_of_mem _ h2, h3⟩
      · rintro ⟨h1, h2, h3⟩
        rcases List.mem_cons.mp h2 with h4 | h4
        · exact absurd (h4.trans hxa) h1
        · exact ⟨h1, h4, h3⟩
    · by_cases hm : (linkFold s x).1 < INFINITY
      · rw [buildDV_cons, if_neg hxa, if_pos hm, ih _ hrest]
        by_cases hdx : d = x
        · subst hdx
          have hnr : d ∉ rest := hx
          rw [if_neg (fun hh => hnr hh.2.1), if_pos ⟨hxa, List.mem_cons_self _ _, hm⟩]
          exact lookupD_insertD_self _ _ _
        · rw [lookupD_insertD_ne _ _ _ _ hdx]
          refine if_congr ?_ rfl rfl
          constructor
          · rintro ⟨h1, h2, h3⟩
            exact ⟨h1, List.mem_cons_of_mem _ h2, h3⟩
          · rintro ⟨h1, h2, h3⟩
            rcases List.mem_cons.mp h2 with h4 | h4
            · exact absurd h4 hdx
            · exact ⟨h1, h4, h3⟩
      · rw [buildDV_cons, if_neg hxa, if_neg hm, ih _ hrest]
        refine if_congr ?_ rfl rfl
        constructor
        · rintro ⟨h1, h2, h3⟩
          exact ⟨h1, List.mem_cons_of_mem _ h2, h3⟩
        · rintro ⟨h1, h2, h3⟩
          rcases List.mem_cons.mp h2 with h4 | h4
          · exact absurd (h4 ▸ h3) hm
          · exact ⟨h1, h4, h3⟩

theorem buildFT_lookup (s : DVState) (L : List Addr)
    (acc : List (Nat × (Nat × Option Port))) (d : Addr) (hL : L.Nodup) :
    lookupD (buildFT s L acc) d =
      if d ≠ s.addr ∧ d ∈ L ∧ (linkFold s d).1 < INFINITY then
        some ((linkFold s d).1, (linkFold s d).2)
      else lookupD acc d := by
  induction L generalizing acc with
  | nil => simp [buildFT]
  | cons x rest ih =>
    obtain ⟨hx, hrest⟩ := List.nodup_cons.mp hL
    by_cases hxa : x = s.addr
    · rw [buildFT_cons, if_pos hxa, ih _ hrest]
      refine if_congr ?_ rfl rfl
      constructor
      · rintro ⟨h1, h2, h3⟩
        exact ⟨h1, List.mem_cons_of_mem _ h2, h3⟩
      · rintro ⟨h1, h2, h3⟩
        rcases List.mem_cons.mp h2 with h4 | h4
        · exact absurd (h4.trans hxa) h1
        · exact ⟨h1, h4, h3⟩
    · by_cases hm : (linkFold s x).1 < INFINITY
      · rw [buildFT_cons, if_neg hxa, if_pos hm, ih _ hrest]
        by_cases hdx : d = x
        · subst hdx
          have hnr : d ∉ rest := hx
          rw [if_neg (fun hh => hnr hh.2.1), if_pos ⟨hxa, List.mem_cons_self _ _, hm⟩]
          exact lookupD_insertD_self _ _ _
        · rw [lookupD_insertD_ne _ _ _ _ hdx]
          refine if_congr ?_ rfl rfl
          constructor
          · rintro ⟨h1, h2, h3⟩
            exact ⟨h1, List.mem_cons_of_mem _ h2, h3⟩
          · rintro ⟨h1, h2, h3⟩
            rcases List.mem_cons.mp h2 with h4 | h4
            · exact absurd h4 hdx
            · exact ⟨h1, h4, h3⟩
      · rw [buildFT_cons, if_neg hxa, if_neg hm, ih _ hrest]
        refine if_congr ?_ rfl rfl
        constructor
        · rintro ⟨h1, h2, h3⟩
          exact ⟨h1, List.mem_cons_of_mem _ h2, h3⟩
        · rintro ⟨h1, h2, h3⟩
          rcases List.mem_cons.mp h2 with h4 | h4
          · exact absurd (h4 ▸ h3) hm
          · exact ⟨h1, h4, h3⟩

end DVrouter

namespace DVrouter

theorem destinations_nodup (s : DVState) : (destinations s).Nodup := dedup_nodup _

theorem update_lookup_dv (s : DVState) (d : Addr) :
    lookupD (update_distance_vector s).2.distance_vector d =
      lookupD (buildDV s (destinations s) [(s.addr, 0)]) d := by
  rw [update_distance_vector]
  by_cases hb : (dictEq (buildDV s (destinations s) [(s.addr, 0)]) s.distance_vector &&
      dictEq (buildFT s (destinations s) []) s.forwarding_table) = true
  · rw [if_pos hb]
    simp only [Bool.and_eq_true] at hb
    exact ((dictEq_iff _ _).mp hb.1 d).symm
  · rw [if_neg hb]

theorem update_lookup_ft (s : DVState) (d : Addr) :
    lookupD (update_distance_vector s).2.forwarding_table d =
      lookupD (buildFT s (destinations s) []) d := by
  rw [update_distance_vector]
  by_cases hb : (dictEq (buildDV s (destinations s) [(s.addr, 0)]) s.distance_vector &&
      dictEq (buildFT s (destinations s) []) s.forwarding_table) = true
  · rw [if_pos hb]
    simp only [Bool.and_eq_true] at hb
    exact ((dictEq_iff _ _).mp hb.2 d).symm
  · rw [if_neg hb]

theorem update_links (s : DVState) :
    (update_distance_vector s).2.links = s.links := by
  rw [update_distance_vector]
  split <;> rfl

theorem update_addr (s : DVState) :
    (update_distance_vector s).2.addr = s.addr := by
  rw [update_distance_vector]
  split <;> rfl

theorem dvInv_update (s : DVState) : dvInv (update_distance_vector s).2 := by
  intro d c po h
  rw [update_lookup_ft s d, buildFT_lookup s _ _ d (destinations_nodup s)] at h
  by_cases hcond : d ≠ s.addr ∧ d ∈ destinations s ∧ (linkFold s d).1 < INFINITY
  · rw [if_pos hcond] at h
    have hc : c = (linkFold s d).1 := congrArg Prod.fst (Option.some.inj h).symm
    have hp : po = (linkFold s d).2 := congrArg Prod.snd (Option.some.inj h).symm
    constructor
    · rw [update_lookup_dv, buildDV_lookup s _ _ d (destinations_nodup s), if_pos hcond, hc]
    · obtain ⟨q, hq1, hq2⟩ := linkFold_port s d hcond.2.2
      exact ⟨q, hp ▸ hq1, update_links s ▸ hq2⟩
  · rw [if_neg hcond] at h
    exact absurd h (by simp [lookupD])

theorem update_changed (s : DVState) :
    (update_distance_vector s).1 = true ↔
      ¬ (∀ k,
        lookupD (update_distance_vector s).2.distance_vector k =
            lookupD s.distance_vector k ∧
          lookupD (update_distance_vector s).2.forwarding_table k =
            lookupD s.forwarding_table k) := by
  rw [update_distance_vector]
  by_cases hb : (dictEq (buildDV s (destinations s) [(s.addr, 0)]) s.distance_vector &&
      dictEq (buildFT s (destinations s) []) s.forwarding_table) = true
  · rw [if_pos hb]
    constructor
    · intro h
      exact absurd h (by simp)
    · intro h
      exact absurd (fun k => ⟨rfl, rfl⟩) h
  · rw [if_neg hb]
    constructor
    · intro _ hall
      apply hb
      simp only [Bool.and_eq_true]
      constructor <;> rw [dictEq_iff] <;> intro k
      · exact (hall k).1
      · exact (hall k).2
    · intro _
      rfl

end DVrouter

/-! Lemmas about the LS engine's graph, shortest paths and derived table. -/

theorem edgeWeight_symm (g : Graph) (a b : Nat) :
    edgeWeight g a b = edgeWeight g b a := by
  induction g with
  | nil => rfl
  | cons e rest ih =>
    by_cases h : (e.1 = a ∧ e.2.1 = b) ∨ (e.1 = b ∧ e.2.1 = a)
    · rw [edgeWeight, if_pos h, edgeWeight, if_pos h.symm]
    · rw [edgeWeight, if_neg h, edgeWeight, if_neg (fun hh => h hh.symm), ih]

theorem edgeWeight_isSome_of_mem {g : Graph} {u v w : Nat} (h : (u, v, w) ∈ g) :
    edgeWeight g u v ≠ none := by
  induction g with
  | nil => simp at h
  | cons e rest ih =>
    rcases List.mem_cons.mp h with h1 | h1
    · rw [edgeWeight, if_pos (Or.inl ⟨congrArg Prod.fst h1.symm,
        congrArg (fun x => x.2.1) h1.symm⟩)]
      simp
    · by_cases hc : (e.1 = u ∧ e.2.1 = v) ∨ (e.1 = v ∧ e.2.1 = u)
      · rw [edgeWeight, if_pos hc]
        simp
      · rw [edgeWeight, if_neg hc]
        exact ih h1

namespace LSrouter

theorem get_port_some_lookup {links : List (Nat × LinkRec)} {n : Addr} {q : Port}
    (h : get_port_for_neighbor links n = some q) : lookupD links q ≠ none := by
  induction links with
  | nil => simp [get_port_for_neighbor] at h
  | cons e rest ih =>
    by_cases hc : e.2.e1 = n ∨ e.2.e2 = n
    · rw [get_port_for_neighbor, if_pos hc] at h
      cases Option.some.inj h
      simp [lookupD]
    · rw [get_port_for_neighbor, if_neg hc] at h
      by_cases he : e.1 = q
      · simp [lookupD, he]
      · simpa [lookupD, he] using ih h

theorem get_port_append {links : List (Nat × LinkRec)} {n : Addr} {q : Port}
    (x : Nat × LinkRec) (h : get_port_for_neighbor links n = some q) :
    get_port_for_neighbor (links ++ [x]) n = some q := by
  induction links with
  | nil => simp [get_port_for_neighbor] at h
  | cons e rest ih =>
    by_cases hc : e.2.e1 = n ∨ e.2.e2 = n
    · rw [get_port_for_neighbor, if_pos hc] at h
      rw [List.cons_append, get_port_for_neighbor, if_pos hc]
      exact h
    · rw [get_port_for_neighbor, if_neg hc] at h
      rw [List.cons_append, get_port_for_neighbor, if_neg hc]
      exact ih h

theorem insertD_fresh {β : Type} {l : List (Nat × β)} {k : Nat} (v : β)
    (h : lookupD l k = none) : insertD l k v = l ++ [(k, v)] := by
  induction l with
  | nil => rfl
  | cons e rest ih =>
    by_cases he : e.1 = k
    · rw [lookupD, if_pos he] at h
      cases h
    · rw [lookupD, if_neg he] at h
      rw [insertD, if_neg he, ih h, List.cons_append]

theorem get_port_insertD_fresh {links : List (Nat × LinkRec)} {n : Addr} {q p : Port}
    (lr : LinkRec) (hp : lookupD links p = none)
    (h : get_port_for_neighbor links n = some q) :
    get_port_for_neighbor (insertD links p lr) n = some q := by
  rw [insertD_fresh lr hp]
  exact get_port_append _ h

theorem relaxDir_pathOk {g : Graph} {src : Nat} {dm : PathMap} {u v w : Nat}
    (hall : ∀ e ∈ dm, pathOk g src e) (hedge : edgeWeight g u v ≠ none) :
    ∀ e ∈ relaxDir dm u v w, pathOk g src e := by
  intro e he
  cases hu : lookupD dm u with
  | none =>
    rw [relaxDir, hu] at he
    exact hall e he
  | some du =>
    have hnew : pathOk g src (v, (du.1 + w, du.2 ++ [v])) := by
      obtain ⟨t, ht1, ht2, ht3⟩ := hall _ (lookupD_some_mem hu)
      refine ⟨t ++ [v], by rw [ht1]; rfl, by simp, ?_⟩
      intro n t2 hn
      cases t with
      | nil =>
        simp at hn
        have hu2 : u = src := ht2 rfl
        rw [← hn.1, ← hu2]
        exact hedge
      | cons m t3 =>
        rw [List.cons_append] at hn
        have hmn : m = n := ((List.cons.injEq _ _ _ _).mp hn).1
        exact hmn ▸ ht3 m t3 rfl
    cases hv : lookupD dm v with
    | none =>
      simp only [relaxDir, hu, hv] at he
      rcases mem_insertD he with h1 | h1
      · rw [h1]
        exact hnew
      · exact hall e h1
    | some dv2 =>
      simp only [relaxDir, hu, hv] at he
      by_cases hlt : du.1 + w < dv2.1
      · rw [if_pos hlt] at he
        rcases mem_insertD he with h1 | h1
        · rw [h1]
          exact hnew
        · exact hall e h1
      · rw [if_neg hlt] at he
        exact hall e he

theorem relaxAll_pathOk {g : Graph} {src : Nat} (es : Graph) (dm : PathMap)
    (hes : ∀ e ∈ es, e ∈ g) (hall : ∀ e ∈ dm, pathOk g src e) :
    ∀ e ∈ relaxAll es dm, pathOk g src e := by
  induction es generalizing dm with
  | nil => exact hall
  | cons e2 rest ih =>
    have hmem : e2 ∈ g := hes e2 (List.mem_cons_self _ _)
    have h1 : ∀ e ∈ relaxDir dm e2.1 e2.2.1 e2.2.2, pathOk g src e :=
      relaxDir_pathOk hall (edgeWeight_isSome_of_mem hmem)
    have h2 : ∀ e ∈ relaxDir (relaxDir dm e2.1 e2.2.1 e2.2.2) e2.2.1 e2.1 e2.2.2,
        pathOk g src e :=
      relaxDir_pathOk h1 (by rw [edgeWeight_symm]; exact edgeWeight_isSome_of_mem hmem)
    exact ih _ (fun x hx => hes x (List.mem_cons_of_mem _ hx)) h2

theorem relaxRounds_pathOk {g : Graph} {src : Nat} (n : Nat) (dm : PathMap)
    (hall : ∀ e ∈ dm, pathOk g src e) :
    ∀ e ∈ relaxRounds g n dm, pathOk g src e := by
  induction n generalizing dm with
  | zero => exact hall
  | succ m ih => exact ih _ (relaxAll_pathOk g dm (fun _ hx => hx) hall)

theorem dijkstraPaths_pathOk (g : Graph) (src : Nat) :
    ∀ e ∈ dijkstraPaths g src, pathOk g src e := by
  apply relaxRounds_pathOk
  intro e he
  rcases List.mem_singleton.mp he with rfl
  exact ⟨[], rfl, fun _ => rfl, fun n t2 h => by cases h⟩

theorem deriveAux_sound (g : Graph) (links : List (Nat × LinkRec)) (addr : Addr) :
    ∀ (L : PathMap) (ft : List (Nat × (Port × Nat))),
      (∀ e ∈ L, pathOk g addr e) →
      (∀ d v, lookupD ft d = some v →
        ∃ n, get_port_for_neighbor links n = some v.1 ∧ edgeWeight g addr n = some v.2) →
      ∀ d v, lookupD (deriveAux g links addr L ft) d = some v →
        ∃ n, get_port_for_neighbor links n = some v.1 ∧ edgeWeight g addr n = some v.2 := by
  intro L
  induction L with
  | nil =>
    intro ft _ hft
    exact hft
  | cons e rest ih =>
    intro ft hL hft
    obtain ⟨dst, dist, path⟩ := e
    have hrest : ∀ x ∈ rest, pathOk g addr x :=
      fun x hx => hL x (List.mem_cons_of_mem _ hx)
    rcases path with _ | ⟨p0, _ | ⟨nh, t⟩⟩
    · exact ih ft hrest hft
    · exact ih ft hrest hft
    · obtain ⟨t2, ht1, _, ht3⟩ := hL _ (List.mem_cons_self _ _)
      have ht1b : p0 :: nh :: t = addr :: t2 := ht1
      have hp0 : p0 = addr := ((List.cons.injEq _ _ _ _).mp ht1b).1
      have htail : t2 = nh :: t := ((List.cons.injEq _ _ _ _).mp ht1b).2.symm
      have hedge : edgeWeight g addr nh ≠ none := ht3 nh t htail
      cases hgp : get_port_for_neighbor links nh with
      | none =>
        simp only [deriveAux, hgp]
        exact ih ft hrest hft
      | some port =>
        simp only [deriveAux, hgp]
        apply ih _ hrest
        intro d v hv
        by_cases hd : d = dst
        · subst hd
          rw [lookupD_insertD_self] at hv
          cases Option.some.inj hv
          refine ⟨nh, hgp, ?_⟩
          cases hew : edgeWeight g addr nh with
          | none => exact absurd hew hedge
          | some w => simp [hew]
        · rw [lookupD_insertD_ne _ _ _ _ hd] at hv
          exact hft d v hv

theorem lsInv_update_forwarding_table (s : LSState) :
    lsInv (update_forwarding_table s) := by
  intro d q c h
  have hs := deriveAux_sound s.graph s.links s.addr (dijkstraPaths s.graph s.addr) []
    (dijkstraPaths_pathOk s.graph s.addr) (fun d v hv => by cases hv) d (q, c) h
  obtain ⟨n, hn1, hn2⟩ := hs
  exact ⟨get_port_some_lookup hn1, n, hn1, hn2⟩

theorem lsInv_update_graph (s : LSState) : lsInv (update_graph s) :=
  lsInv_update_forwarding_table { s with graph := buildGraph s.link_state }

end LSrouter

/-! Claim theorems. -/

theorem lookupD_mapValD {β γ : Type} (f : Nat → β → γ) (l : List (Nat × β)) (k : Nat) :
    lookupD (mapValD f l) k = (lookupD l k).map (f k) := by
  induction l with
  | nil => rfl
  | cons e rest ih =>
    by_cases he : e.1 = k
    · simp [mapValD, lookupD, he]
    · simpa [mapValD, lookupD, he] using ih

/-- Claim C5: the DV broadcast sends, on every active link, a copy of the
distance vector in which exactly the destinations other than the link's
neighbor whose forwarding-table port equals that link's port are reported at
INFINITY, and every other destination at its true cost; and those are the
only packets sent. -/
theorem c5_poison_reverse (s : DVState) :
    (∀ e ∈ s.links,
      (some e.1, (⟨Packet.ROUTING, s.addr, e.2.1,
        mapValD (fun d c => if DVrouter.poisonCond s e.1 e.2.1 d then INFINITY else c)
          s.distance_vector⟩ : DVPacket)) ∈ DVrouter.broadcast_distance_vector s) ∧
    (∀ x ∈ DVrouter.broadcast_distance_vector s, ∃ e ∈ s.links,
      x.1 = some e.1 ∧ x.2.kind = Packet.ROUTING ∧ x.2.src_addr = s.addr ∧
      x.2.dst_addr = e.2.1 ∧
      ∀ d, lookupD x.2.content d =
        (lookupD s.distance_vector d).map (fun c =>
          match lookupD s.forwarding_table d with
          | some en => if d ≠ e.2.1 ∧ en.2 = some e.1 then INFINITY else c
          | none => c)) := by
  constructor
  · intro e he
    rw [DVrouter.broadcast_distance_vector]
    exact List.mem_map.mpr ⟨e, he, rfl⟩
  · intro x hx
    rw [DVrouter.broadcast_distance_vector] at hx
    obtain ⟨e, he, hfe⟩ := List.mem_map.mp hx
    subst hfe
    refine ⟨e, he, rfl, rfl, rfl, rfl, ?_⟩
    intro d
    rw [lookupD_mapValD]
    cases hdv : lookupD s.distance_vector d with
    | none => rfl
    | some c =>
      simp only [Option.map_some']
      cases hft : lookupD s.forwarding_table d with
      | none =>
        simp [DVrouter.poisonCond, hft]
      | some en =>
        have hb : DVrouter.poisonCond s e.1 e.2.1 d = true ↔
            (d ≠ e.2.1 ∧ en.2 = some e.1) := by
          simp [DVrouter.poisonCond, hft, Bool.and_eq_true, decide_eq_true_eq]
        show some (if DVrouter.poisonCond s e.1 e.2.1 d = true then INFINITY else c) =
          some (if d ≠ e.2.1 ∧ en.2 = some e.1 then INFINITY else c)
        by_cases hc : d ≠ e.2.1 ∧ en.2 = some e.1
        · rw [if_pos (hb.mpr hc), if_pos hc]
        · rw [if_neg (fun hh => hc (hb.mp hh)), if_neg hc]

/-- Witness for C5 at the concrete chain state `dvC`: the vector sent on port
1 is in the broadcast, and every broadcast packet matches the poison-reverse
characterization. -/
theorem c5_poison_reverse_witness :
    (some 1, (⟨Packet.ROUTING, dvC.addr, 1,
      mapValD (fun d c => if DVrouter.poisonCond dvC 1 1 d then INFINITY else c)
        dvC.distance_vector⟩ : DVPacket)) ∈ DVrouter.broadcast_distance_vector dvC :=
  (c5_poison_reverse dvC).1 (1, 1, 1) (by decide)

/-- Claim C6: the DV recompute assigns each destination other than self the
minimum over all links of link cost plus the advertised cost (missing entries
read as INFINITY, direct link cost when the destination is the link's
neighbor); destinations with minimum ≥ INFINITY appear in neither table, and
the Boolean result is true exactly when the resulting vector or table differs
(as a mapping) from the previous ones. -/
theorem c6_dv_recompute (s : DVState) (d : Addr) (hd : d ≠ s.addr) :
    (lookupD (DVrouter.update_distance_vector s).2.distance_vector d =
      if d ∈ DVrouter.destinations s ∧ DVrouter.minOverLinks s d < INFINITY then
        some (DVrouter.minOverLinks s d) else none) ∧
    (lookupD (DVrouter.update_distance_vector s).2.forwarding_table d =
      if d ∈ DVrouter.destinations s ∧ DVrouter.minOverLinks s d < INFINITY then
        some (DVrouter.minOverLinks s d, (DVrouter.linkFold s d).2) else none) ∧
    ((DVrouter.update_distance_vector s).1 = true ↔
      ¬ ∀ k, lookupD (DVrouter.update_distance_vector s).2.distance_vector k =
            lookupD s.distance_vector k ∧
          lookupD (DVrouter.update_distance_vector s).2.forwarding_table k =
            lookupD s.forwarding_table k) := by
  have hmc := DVrouter.linkFold_eq_minOverLinks s d
  have haddr : ¬ (s.addr = d) := fun hh => hd hh.symm
  refine ⟨?_, ?_, DVrouter.update_changed s⟩
  · rw [DVrouter.update_lookup_dv, DVrouter.buildDV_lookup s _ _ d
      (DVrouter.destinations_nodup s)]
    by_cases hc : d ∈ DVrouter.destinations s ∧ DVrouter.minOverLinks s d < INFINITY
    · rw [if_pos ⟨hd, hc.1, lt_of_eq_of_lt hmc hc.2⟩, if_pos hc, hmc]
    · rw [if_neg (fun hh => hc ⟨hh.2.1, lt_of_eq_of_lt hmc.symm hh.2.2⟩), if_neg hc]
      simp [lookupD, haddr]
  · rw [DVrouter.update_lookup_ft, DVrouter.buildFT_lookup s _ _ d
      (DVrouter.destinations_nodup s)]
    by_cases hc : d ∈ DVrouter.destinations s ∧ DVrouter.minOverLinks s d < INFINITY
    · rw [if_pos ⟨hd, hc.1, lt_of_eq_of_lt hmc hc.2⟩, if_pos hc, hmc]
    · rw [if_neg (fun hh => hc ⟨hh.2.1, lt_of_eq_of_lt hmc.symm hh.2.2⟩), if_neg hc]
      rfl

/-- Witness for C6 at the chain state `dvC` and destination 2. -/
theorem c6_dv_recompute_witness :
    (lookupD (DVrouter.update_distance_vector dvC).2.distance_vector 2 =
      if 2 ∈ DVrouter.destinations dvC ∧ DVrouter.minOverLinks dvC 2 < INFINITY then
        some (DVrouter.minOverLinks dvC 2) else none) ∧
    (lookupD (DVrouter.update_distance_vector dvC).2.forwarding_table 2 =
      if 2 ∈ DVrouter.destinations dvC ∧ DVrouter.minOverLinks dvC 2 < INFINITY then
        some (DVrouter.minOverLinks dvC 2, (DVrouter.linkFold dvC 2).2) else none) :=
  ⟨(c6_dv_recompute dvC 2 (by decide)).1, (c6_dv_recompute dvC 2 (by decide)).2.1⟩

/-- Claim C8: in both engines a traceroute/data packet is forwarded on exactly
the port stored in the forwarding-table entry for its destination, and when no
entry exists the packet is dropped with no send and no state change (the
handlers are total functions, so no error is possible). -/
theorem c8_traceroute_forwarding :
    (∀ (s : DVState) (port : Port) (pkt : DVPacket), pkt.kind = Packet.TRACEROUTE →
      (∀ en, lookupD s.forwarding_table pkt.dst_addr = some en →
        DVrouter.handle_packet s port pkt = (s, [(en.2, pkt)])) ∧
      (lookupD s.forwarding_table pkt.dst_addr = none →
        DVrouter.handle_packet s port pkt = (s, []))) ∧
    (∀ (s : LSState) (port : Port) (pkt : LSPacket), pkt.kind = Packet.TRACEROUTE →
      (∀ en, lookupD s.forwarding_table pkt.dst_addr = some en →
        LSrouter.handle_packet s port pkt = (s, [(en.1, pkt)])) ∧
      (lookupD s.forwarding_table pkt.dst_addr = none →
        LSrouter.handle_packet s port pkt = (s, []))) := by
  constructor
  · intro s port pkt hk
    constructor
    · intro en hen
      rw [DVrouter.handle_packet, if_pos hk]
      simp only [hen]
    · intro hen
      rw [DVrouter.handle_packet, if_pos hk]
      simp only [hen]
  · intro s port pkt hk
    have h1 : ¬ pkt.kind = Packet.ROUTING := by
      rw [hk]
      decide
    constructor
    · intro en hen
      rw [LSrouter.handle_packet, if_neg h1, if_pos hk]
      simp only [hen]
    · intro hen
      rw [LSrouter.handle_packet, if_neg h1, if_pos hk]
      simp only [hen]

/-- Witness for C8: a data packet for destination 2 is forwarded by `dvC` on
the stored port, and a data packet for the unknown destination 7 is silently
dropped by `lsChainState`. -/
theorem c8_traceroute_forwarding_witness :
    DVrouter.handle_packet dvC 9 ⟨Packet.TRACEROUTE, 9, 2, []⟩ =
      (dvC, [(some 1, ⟨Packet.TRACEROUTE, 9, 2, []⟩)]) ∧
    LSrouter.handle_packet lsChainState 9 ⟨Packet.TRACEROUTE, 9, 7, ⟨0, 0, []⟩⟩ =
      (lsChainState, []) :=
  ⟨(c8_traceroute_forwarding.1 dvC 9 _ rfl).1 (2, some 1) (by decide),
   (c8_traceroute_forwarding.2 lsChainState 9 _ rfl).2 (by decide)⟩

/-- Claim C9: the DV time handler broadcasts the poisoned vector
unconditionally and records the new time exactly when a full heartbeat
interval has elapsed, and otherwise changes nothing and sends nothing. -/
theorem c9_dv_heartbeat (s : DVState) (t : Int) :
    (t - s.last_time ≥ s.heartbeat_time →
      DVrouter.handle_time s t =
        ({ s with last_time := t }, DVrouter.broadcast_distance_vector s)) ∧
    (¬ t - s.last_time ≥ s.heartbeat_time → DVrouter.handle_time s t = (s, [])) := by
  constructor
  · intro h
    rw [DVrouter.handle_time, if_pos h]
    rfl
  · intro h
    rw [DVrouter.handle_time, if_neg h]

/-- Witness for C9 at `dvB`: time 7 triggers the heartbeat, time 3 does not. -/
theorem c9_dv_heartbeat_witness :
    DVrouter.handle_time dvB 7 =
      ({ dvB with last_time := 7 }, DVrouter.broadcast_distance_vector dvB) ∧
    DVrouter.handle_time dvB 3 = (dvB, []) :=
  ⟨(c9_dv_heartbeat dvB 7).1 (by decide), (c9_dv_heartbeat dvB 3).2 (by decide)⟩

/-! Helper equations and flood lemmas for the LS claims. -/

theorem ls_stale_eq (s : LSState) (port : Port) (pkt : LSPacket)
    (hk : pkt.kind = Packet.ROUTING)
    (hle : ¬ pkt.content.seq > (lookupD s.sequence_numbers pkt.content.src).getD (-1)) :
    LSrouter.handle_packet s port pkt = (s, []) := by
  rw [LSrouter.handle_packet, if_pos hk, if_neg hle]

theorem ls_accept_eq (s : LSState) (port : Port) (pkt : LSPacket)
    (hk : pkt.kind = Packet.ROUTING)
    (hgt : pkt.content.seq > (lookupD s.sequence_numbers pkt.content.src).getD (-1)) :
    LSrouter.handle_packet s port pkt =
      (LSrouter.update_graph (LSrouter.acceptState s pkt.content),
        LSrouter.flood (LSrouter.update_graph (LSrouter.acceptState s pkt.content))
          pkt.content port) := by
  rw [LSrouter.handle_packet, if_pos hk, if_pos hgt]

theorem flood_sound (s : LSState) (c : LSAdv) (ex : Port) :
    ∀ x ∈ LSrouter.flood s c ex, x.1 ≠ ex ∧ x.2.kind = Packet.ROUTING ∧
      x.2.src_addr = s.addr ∧ x.2.content = c ∧
      ∃ nb, LSrouter.get_port_for_neighbor s.links nb = some x.1 ∧ x.2.dst_addr = nb ∧
        ∃ w, (nb, w) ∈ (lookupD s.link_state s.addr).getD [] := by
  intro x hx
  rw [LSrouter.flood] at hx
  obtain ⟨a, ha, hfa⟩ := List.mem_filterMap.mp hx
  cases hgp : LSrouter.get_port_for_neighbor s.links a.1 with
  | none => simp [hgp] at hfa
  | some p =>
    simp only [hgp] at hfa
    by_cases hpe : p ≠ ex
    · rw [if_pos hpe] at hfa
      obtain rfl := Option.some.inj hfa
      exact ⟨hpe, rfl, rfl, rfl, a.1, hgp, rfl, a.2, ha⟩
    · rw [if_neg hpe] at hfa
      cases hfa

theorem flood_complete (s : LSState) (c : LSAdv) (ex : Port) (nb : Addr) (w : Nat)
    (hmem : (nb, w) ∈ (lookupD s.link_state s.addr).getD []) (q : Port)
    (hq : LSrouter.get_port_for_neighbor s.links nb = some q) (hne : q ≠ ex) :
    (q, (⟨Packet.ROUTING, s.addr, nb, c⟩ : LSPacket)) ∈ LSrouter.flood s c ex := by
  rw [LSrouter.flood]
  refine List.mem_filterMap.mpr ⟨(nb, w), hmem, ?_⟩
  have hq2 : LSrouter.get_port_for_neighbor s.links (nb, w).1 = some q := hq
  simp only [hq2]
  rw [if_pos hne]

/-- Claim C4: a ROUTING advertisement whose sequence number is not strictly
greater than the recorded one leaves the whole state unchanged and sends
nothing; a strictly greater one is accepted — sequence number and LSDB entry
of the origin are replaced — and the raw advertisement is flooded, on the
ports of exactly the currently resolvable LSDB[self] neighbors other than the
incoming port. -/
theorem c4_ls_seq_gate (s : LSState) (port : Port) (pkt : LSPacket)
    (hk : pkt.kind = Packet.ROUTING) :
    (pkt.content.seq ≤ (lookupD s.sequence_numbers pkt.content.src).getD (-1) →
      LSrouter.handle_packet s port pkt = (s, [])) ∧
    (pkt.content.seq > (lookupD s.sequence_numbers pkt.content.src).getD (-1) →
      lookupD (LSrouter.handle_packet s port pkt).1.sequence_numbers pkt.content.src =
          some pkt.content.seq ∧
        lookupD (LSrouter.handle_packet s port pkt).1.link_state pkt.content.src =
          some pkt.content.neighbors ∧
        (LSrouter.handle_packet s port pkt).2 =
          LSrouter.flood (LSrouter.handle_packet s port pkt).1 pkt.content port ∧
        (∀ x ∈ (LSrouter.handle_packet s port pkt).2,
          x.1 ≠ port ∧ x.2.content = pkt.content ∧
          ∃ nb, LSrouter.get_port_for_neighbor (LSrouter.handle_packet s port pkt).1.links nb
              = some x.1 ∧ x.2.dst_addr = nb) ∧
        (∀ nb w, (nb, w) ∈ (lookupD (LSrouter.handle_packet s port pkt).1.link_state
              (LSrouter.handle_packet s port pkt).1.addr).getD [] →
          ∀ q, LSrouter.get_port_for_neighbor (LSrouter.handle_packet s port pkt).1.links nb
              = some q → q ≠ port →
            (q, (⟨Packet.ROUTING, (LSrouter.handle_packet s port pkt).1.addr, nb,
              pkt.content⟩ : LSPacket)) ∈ (LSrouter.handle_packet s port pkt).2)) := by
  constructor
  · intro hle
    exact ls_stale_eq s port pkt hk (not_lt.mpr hle)
  · intro hgt
    rw [ls_accept_eq s port pkt hk hgt]
    refine ⟨lookupD_insertD_self _ _ _, lookupD_insertD_self _ _ _, rfl, ?_, ?_⟩
    · intro x hx
      obtain ⟨h1, _, _, h4, nb, h5, h6, _⟩ := flood_sound _ _ _ x hx
      exact ⟨h1, h4, nb, h5, h6⟩
    · intro nb w hmem q hq hne
      exact flood_complete _ _ _ nb w hmem q hq hne

/-- Witness for C4 at `lsChainState` (recorded sequence number 5 for router
1): a duplicate with sequence number 3 is inert, a fresh advertisement with
sequence number 9 is recorded. -/
theorem c4_ls_seq_gate_witness :
    LSrouter.handle_packet lsChainState 1 ⟨Packet.ROUTING, 1, 0, ⟨1, 3, [(7, 7)]⟩⟩ =
      (lsChainState, []) ∧
    lookupD (LSrouter.handle_packet lsChainState 1
        ⟨Packet.ROUTING, 1, 0, ⟨1, 9, [(0, 1)]⟩⟩).1.sequence_numbers 1 = some 9 :=
  ⟨(c4_ls_seq_gate lsChainState 1 _ rfl).1 (by decide),
   ((c4_ls_seq_gate lsChainState 1 _ rfl).2 (by decide)).1⟩

/-! Sequence-number monotonicity helpers. -/

theorem getD_lookup_insert_lt (sq : List (Nat × Int)) (a : Nat) :
    (lookupD sq a).getD (-1) <
      (lookupD (insertD sq a ((lookupD sq a).getD 0 + 1)) a).getD (-1) := by
  rw [lookupD_insertD_self]
  cases h : lookupD sq a with
  | none => simp
  | some k =>
    simp [h]

theorem seq_mono_incr (sq : List (Nat × Int)) (a r : Nat) :
    (lookupD sq r).getD (-1) ≤
      (lookupD (insertD sq a ((lookupD sq a).getD 0 + 1)) r).getD (-1) := by
  by_cases hr : r = a
  · subst hr
    exact le_of_lt (getD_lookup_insert_lt sq r)
  · rw [lookupD_insertD_ne _ _ _ _ hr]

theorem seq_mono_insert (sq : List (Nat × Int)) (src : Nat) (v : Int)
    (hv : (lookupD sq src).getD (-1) < v) (r : Nat) :
    (lookupD sq r).getD (-1) ≤ (lookupD (insertD sq src v) r).getD (-1) := by
  by_cases hr : r = src
  · subst hr
    rw [lookupD_insertD_self, Option.getD_some]
    exact le_of_lt hv
  · rw [lookupD_insertD_ne _ _ _ _ hr]

/-- Claim C7: in the LS engine the recorded sequence number of every router
never decreases across any of the four operations, and the router's own
sequence number strictly increases on link-up, on link-down and on every
heartbeat-triggered broadcast. -/
theorem c7_seq_monotone :
    (∀ (s : LSState) (port : Port) (pkt : LSPacket) (r : Addr),
      seqOf s r ≤ seqOf (LSrouter.handle_packet s port pkt).1 r) ∧
    (∀ (s : LSState) (port : Port) (endpoint : Addr) (cost : Nat) (r : Addr),
      seqOf s r ≤ seqOf (LSrouter.on_link_up s port endpoint cost).1 r) ∧
    (∀ (s : LSState) (port : Port) (r : Addr),
      seqOf s r ≤ seqOf (LSrouter.on_link_down s port).1 r) ∧
    (∀ (s : LSState) (t : Int) (r : Addr),
      seqOf s r ≤ seqOf (LSrouter.handle_time s t).1 r) ∧
    (∀ (s : LSState) (port : Port) (endpoint : Addr) (cost : Nat),
      seqOf s s.addr < seqOf (LSrouter.on_link_up s port endpoint cost).1 s.addr) ∧
    (∀ (s : LSState) (port : Port),
      seqOf s s.addr < seqOf (LSrouter.on_link_down s port).1 s.addr) ∧
    (∀ (s : LSState) (t : Int), t - s.last_time ≥ s.heartbeat_time →
      seqOf s s.addr < seqOf (LSrouter.handle_time s t).1 s.addr) := by
  refine ⟨?_, ?_, ?_, ?_, ?_, ?_, ?_⟩
  · intro s port pkt r
    by_cases hk : pkt.kind = Packet.ROUTING
    · by_cases hgt : pkt.content.seq >
          (lookupD s.sequence_numbers pkt.content.src).getD (-1)
      · rw [ls_accept_eq s port pkt hk hgt]
        exact seq_mono_insert s.sequence_numbers pkt.content.src pkt.content.seq hgt r
      · rw [ls_stale_eq s port pkt hk hgt]
    · by_cases ht : pkt.kind = Packet.TRACEROUTE
      · rw [LSrouter.handle_packet, if_neg hk, if_pos ht]
        cases hft : lookupD s.forwarding_table pkt.dst_addr <;> simp only [hft] <;>
          exact le_refl _
      · rw [LSrouter.handle_packet, if_neg hk, if_neg ht]
  · intro s port endpoint cost r
    exact seq_mono_incr s.sequence_numbers s.addr r
  · intro s port r
    exact seq_mono_incr s.sequence_numbers s.addr r
  · intro s t r
    by_cases h : t - s.last_time ≥ s.heartbeat_time
    · rw [LSrouter.handle_time, if_pos h]
      exact seq_mono_incr s.sequence_numbers s.addr r
    · rw [LSrouter.handle_time, if_neg h]
  · intro s port endpoint cost
    exact getD_lookup_insert_lt s.sequence_numbers s.addr
  · intro s port
    exact getD_lookup_insert_lt s.sequence_numbers s.addr
  · intro s t h
    rw [LSrouter.handle_time, if_pos h]
    exact getD_lookup_insert_lt s.sequence_numbers s.addr

/-- Witness for C7: the heartbeat at time 7 strictly increases router 0's own
sequence number in state `lsB`. -/
theorem c7_seq_monotone_witness :
    seqOf lsB lsB.addr < seqOf (LSrouter.handle_time lsB 7).1 lsB.addr :=
  c7_seq_monotone.2.2.2.2.2.2 lsB 7 (by decide)

/-- Claim C10: a ROUTING advertisement from an origin with no recorded
sequence number is compared against the default -1, so it is accepted (state
updated, flood emitted) exactly when its sequence number is ≥ 0 — including
sequence number 0 — and it is inert when its sequence number is negative. -/
theorem c10_first_advertisement (s : LSState) (port : Port) (pkt : LSPacket)
    (hk : pkt.kind = Packet.ROUTING)
    (hnew : lookupD s.sequence_numbers pkt.content.src = none) :
    (0 ≤ pkt.content.seq →
      lookupD (LSrouter.handle_packet s port pkt).1.sequence_numbers pkt.content.src =
          some pkt.content.seq ∧
        lookupD (LSrouter.handle_packet s port pkt).1.link_state pkt.content.src =
          some pkt.content.neighbors ∧
        (LSrouter.handle_packet s port pkt).2 =
          LSrouter.flood (LSrouter.handle_packet s port pkt).1 pkt.content port) ∧
    (pkt.content.seq < 0 → LSrouter.handle_packet s port pkt = (s, [])) := by
  have hrec : (lookupD s.sequence_numbers pkt.content.src).getD (-1) = -1 := by
    rw [hnew]
    rfl
  constructor
  · intro h0
    have hgt : pkt.content.seq >
        (lookupD s.sequence_numbers pkt.content.src).getD (-1) := by
      rw [hrec]
      omega
    rw [ls_accept_eq s port pkt hk hgt]
    exact ⟨lookupD_insertD_self _ _ _, lookupD_insertD_self _ _ _, rfl⟩
  · intro hneg
    apply ls_stale_eq s port pkt hk
    rw [hrec]
    omega

/-- Witness for C10 at `lsB`: router 7 is unknown there, so its advertisement
with sequence number 0 is accepted and recorded, while one with sequence
number -1 is inert. -/
theorem c10_first_advertisement_witness :
    lookupD (LSrouter.handle_packet lsB 1
        ⟨Packet.ROUTING, 7, 0, ⟨7, 0, [(5, 2)]⟩⟩).1.sequence_numbers 7 = some 0 ∧
    LSrouter.handle_packet lsB 1 ⟨Packet.ROUTING, 7, 0, ⟨7, -1, []⟩⟩ = (lsB, []) :=
  ⟨((c10_first_advertisement lsB 1 _ rfl (by decide)).1 (by decide)).1,
   (c10_first_advertisement lsB 1 _ rfl (by decide)).2 (by decide)⟩

/-! Lemmas about the LSDB cleanup of `handle_remove_link`. -/

theorem lookupD_eraseD_none {β : Type} {m : List (Nat × β)} {n : Nat} (k : Nat)
    (h : lookupD m n = none) : lookupD (eraseD m k) n = none := by
  by_cases hk : n = k
  · subst hk
    exact lookupD_eraseD_self m n
  · rwa [lookupD_eraseD_ne _ _ _ hk]

theorem removeFirst_lookup (addr ee : Nat) (ls : List (Nat × List (Nat × Nat)))
    (k : Nat) :
    lookupD (LSrouter.removeFirst addr ee ls) k =
      match lookupD ls addr with
      | some m => if addr = k then some (eraseD m ee) else lookupD ls k
      | none => lookupD ls k := by
  rw [LSrouter.removeFirst]
  cases h0 : lookupD ls addr with
  | none => rfl
  | some m0 =>
    by_cases hk : addr = k
    · subst hk
      simp [lookupD_insertD_self]
    · simp [lookupD_insertD_ne _ _ _ _ (fun hh => hk hh.symm), hk]

theorem removeSecond_lookup (addr ee : Nat) (ls1 : List (Nat × List (Nat × Nat)))
    (k : Nat) :
    lookupD (LSrouter.removeSecond addr ee ls1) k =
      match lookupD ls1 ee with
      | some m => if ee = k then some (eraseD m addr) else lookupD ls1 k
      | none => lookupD ls1 k := by
  rw [LSrouter.removeSecond]
  cases h0 : lookupD ls1 ee with
  | none => rfl
  | some m2 =>
    by_cases hk : ee = k
    · subst hk
      simp [lookupD_insertD_self]
    · simp [lookupD_insertD_ne _ _ _ _ (fun hh => hk hh.symm), hk]

theorem removeFirst_pres (addr ee : Nat) (ls : List (Nat × List (Nat × Nat)))
    (k x : Nat) (hclean : ∀ m, lookupD ls k = some m → lookupD m x = none) :
    ∀ m, lookupD (LSrouter.removeFirst addr ee ls) k = some m → lookupD m x = none := by
  intro m hm
  rw [removeFirst_lookup] at hm
  cases h0 : lookupD ls addr with
  | none =>
    simp only [h0] at hm
    exact hclean m hm
  | some m0 =>
    simp only [h0] at hm
    by_cases hk : addr = k
    · rw [if_pos hk] at hm
      cases Option.some.inj hm
      exact lookupD_eraseD_none _ (hclean m0 (by rw [← hk]; exact h0))
    · rw [if_neg hk] at hm
      exact hclean m hm

theorem removeSecond_pres (addr ee : Nat) (ls1 : List (Nat × List (Nat × Nat)))
    (k x : Nat) (hclean : ∀ m, lookupD ls1 k = some m → lookupD m x = none) :
    ∀ m, lookupD (LSrouter.removeSecond addr ee ls1) k = some m → lookupD m x = none := by
  intro m hm
  rw [removeSecond_lookup] at hm
  cases h0 : lookupD ls1 ee with
  | none =>
    simp only [h0] at hm
    exact hclean m hm
  | some m2 =>
    simp only [h0] at hm
    by_cases hk : ee = k
    · rw [if_pos hk] at hm
      cases Option.some.inj hm
      exact lookupD_eraseD_none _ (hclean m2 (by rw [← hk]; exact h0))
    · rw [if_neg hk] at hm
      exact hclean m hm

theorem removeStep_pres (links : List (Nat × LinkRec)) (addr : Addr)
    (ls : List (Nat × List (Nat × Nat))) (e : Nat × Nat) (k x : Nat)
    (hclean : ∀ m, lookupD ls k = some m → lookupD m x = none) :
    ∀ m, lookupD (LSrouter.removeStep links addr ls e) k = some m →
      lookupD m x = none := by
  intro m hm
  rw [LSrouter.removeStep] at hm
  by_cases hcond : (LSrouter.get_port_for_neighbor links e.1).isNone = true
  · rw [if_pos hcond] at hm
    exact removeSecond_pres addr e.1 _ k x
      (removeFirst_pres addr e.1 ls k x hclean) m hm
  · rw [if_neg hcond] at hm
    exact hclean m hm

theorem removeSecond_cleans (addr ee : Nat) (ls1 : List (Nat × List (Nat × Nat))) :
    ∀ m, lookupD (LSrouter.removeSecond addr ee ls1) ee = some m →
      lookupD m addr = none := by
  intro m hm
  rw [removeSecond_lookup] at hm
  cases h0 : lookupD ls1 ee with
  | none =>
    simp only [h0] at hm
    exact Option.noConfusion hm
  | some m2 =>
    simp only [h0, if_pos rfl] at hm
    cases Option.some.inj hm
    exact lookupD_eraseD_self _ _

theorem removeFirst_cleans (addr ee : Nat) (ls : List (Nat × List (Nat × Nat))) :
    ∀ m, lookupD (LSrouter.removeFirst addr ee ls) addr = some m →
      lookupD m ee = none := by
  intro m hm
  rw [removeFirst_lookup] at hm
  cases h0 : lookupD ls addr with
  | none =>
    simp only [h0] at hm
    exact Option.noConfusion hm
  | some m0 =>
    simp only [h0, if_pos rfl] at hm
    cases Option.some.inj hm
    exact lookupD_eraseD_self _ _

theorem removeStep_cleans_self (links : List (Nat × LinkRec)) (addr : Addr)
    (ls : List (Nat × List (Nat × Nat))) (e : Nat × Nat)
    (hcond : (LSrouter.get_port_for_neighbor links e.1).isNone = true) :
    ∀ m, lookupD (LSrouter.removeStep links addr ls e) addr = some m →
      lookupD m e.1 = none := by
  rw [LSrouter.removeStep, if_pos hcond]
  exact removeSecond_pres addr e.1 _ addr e.1 (removeFirst_cleans addr e.1 ls)

theorem removeStep_cleans_rev (links : List (Nat × LinkRec)) (addr : Addr)
    (ls : List (Nat × List (Nat × Nat))) (e : Nat × Nat)
    (hcond : (LSrouter.get_port_for_neighbor links e.1).isNone = true) :
    ∀ m, lookupD (LSrouter.removeStep links addr ls e) e.1 = some m →
      lookupD m addr = none := by
  rw [LSrouter.removeStep, if_pos hcond]
  exact removeSecond_cleans addr e.1 _

theorem foldl_removeStep_pres (links : List (Nat × LinkRec)) (addr : Addr)
    (todo : List (Nat × Nat)) (ls : List (Nat × List (Nat × Nat))) (k x : Nat)
    (hclean : ∀ m, lookupD ls k = some m → lookupD m x = none) :
    ∀ m, lookupD (todo.foldl (LSrouter.removeStep links addr) ls) k = some m →
      lookupD m x = none := by
  induction todo generalizing ls with
  | nil => exact hclean
  | cons e rest ih =>
    exact ih (LSrouter.removeStep links addr ls e)
      (removeStep_pres links addr ls e k x hclean)

theorem foldl_removeStep_clean_self (links : List (Nat × LinkRec)) (addr : Addr)
    (todo : List (Nat × Nat)) (ls : List (Nat × List (Nat × Nat))) (n w : Nat)
    (hmem : (n, w) ∈ todo)
    (hres : LSrouter.get_port_for_neighbor links n = none) :
    ∀ m, lookupD (todo.foldl (LSrouter.removeStep links addr) ls) addr = some m →
      lookupD m n = none := by
  induction todo generalizing ls with
  | nil => cases hmem
  | cons e rest ih =>
    rcases List.mem_cons.mp hmem with h1 | h1
    · have he : e.1 = n := by rw [← h1]
      have hcond : (LSrouter.get_port_for_neighbor links e.1).isNone = true := by
        rw [he, hres]
        rfl
      refine foldl_removeStep_pres links addr rest _ addr n ?_
      intro m hm
      exact he ▸ removeStep_cleans_self links addr ls e hcond m hm
    · exact ih _ h1

theorem foldl_removeStep_clean_rev (links : List (Nat × LinkRec)) (addr : Addr)
    (todo : List (Nat × Nat)) (ls : List (Nat × List (Nat × Nat))) (n w : Nat)
    (hmem : (n, w) ∈ todo)
    (hres : LSrouter.get_port_for_neighbor links n = none) :
    ∀ m, lookupD (todo.foldl (LSrouter.removeStep links addr) ls) n = some m →
      lookupD m addr = none := by
  induction todo generalizing ls with
  | nil => cases hmem
  | cons e rest ih =>
    rcases List.mem_cons.mp hmem with h1 | h1
    · have he : e.1 = n := by rw [← h1]
      have hcond : (LSrouter.get_port_for_neighbor links e.1).isNone = true := by
        rw [he, hres]
        rfl
      refine foldl_removeStep_pres links addr rest _ n addr ?_
      intro m hm
      exact removeStep_cleans_rev links addr ls e hcond m (he ▸ hm)
    · exact ih _ h1

/-- Claim C3: after a link-down on port p, no forwarding-table entry of either
engine references p; and in the LS engine every LSDB[self] neighbor of the
snapshot that no longer resolves to a registered port — in particular the
removed link's neighbor — is gone from LSDB[self], and its reverse entry
LSDB[neighbor][self] is gone too.  The DV hypothesis `dvInv` (ports of
existing entries are registered) holds in every reachable state and covers the
no-op branch where p is not a registered port. -/
theorem c3_link_removal_cleanup :
    (∀ (sd : DVState) (p : Port), dvInv sd →
      ∀ d en, lookupD (DVrouter.handle_remove_link sd p).1.forwarding_table d = some en →
        en.2 ≠ some p) ∧
    (∀ (sl : LSState) (q : Port),
      (∀ d en, lookupD (LSrouter.on_link_down sl q).1.forwarding_table d = some en →
        en.1 ≠ q) ∧
      (∀ n w, (n, w) ∈ (lookupD sl.link_state sl.addr).getD [] →
        LSrouter.get_port_for_neighbor (eraseD sl.links q) n = none →
        (∀ m, lookupD (LSrouter.on_link_down sl q).1.link_state sl.addr = some m →
          lookupD m n = none) ∧
        (∀ m, lookupD (LSrouter.on_link_down sl q).1.link_state n = some m →
          lookupD m sl.addr = none))) := by
  constructor
  · intro sd p hInv d en h
    cases hl : lookupD sd.links p with
    | none =>
      have heq : DVrouter.handle_remove_link sd p = (sd, []) := by
        rw [DVrouter.handle_remove_link, hl]
      rw [heq] at h
      obtain ⟨-, qq, hq1, hq2⟩ := hInv d en.1 en.2 h
      intro hcontra
      rw [hcontra] at hq1
      cases Option.some.inj hq1
      exact hq2 hl
    | some link =>
      have heq : (DVrouter.handle_remove_link sd p).1 =
          (DVrouter.update_distance_vector
            { sd with links := eraseD sd.links p,
                      neighbor_vectors := eraseD sd.neighbor_vectors link.1 }).2 := by
        rw [DVrouter.handle_remove_link, hl]
      rw [heq, DVrouter.update_lookup_ft,
        DVrouter.buildFT_lookup _ _ _ d (DVrouter.destinations_nodup _)] at h
      split at h
      case isTrue hcond =>
        cases Option.some.inj h
        obtain ⟨qq, hq1, hq2⟩ := DVrouter.linkFold_port _ d hcond.2.2
        rw [hq1]
        intro hcontra
        cases Option.some.inj hcontra
        exact hq2 (lookupD_eraseD_self sd.links p)
      case isFalse hcond =>
        exact Option.noConfusion h
  · intro sl q
    constructor
    · intro d en h
      have hinv : lsInv (LSrouter.on_link_down sl q).1 := LSrouter.lsInv_update_graph _
      obtain ⟨hlinks, -⟩ := hinv d en.1 en.2 h
      intro hcontra
      rw [hcontra] at hlinks
      exact hlinks (lookupD_eraseD_self sl.links q)
    · intro n w hmem hres
      constructor
      · intro m hm
        exact foldl_removeStep_clean_self (eraseD sl.links q) sl.addr
          ((lookupD sl.link_state sl.addr).getD []) sl.link_state n w hmem hres m hm
      · intro m hm
        exact foldl_removeStep_clean_rev (eraseD sl.links q) sl.addr
          ((lookupD sl.link_state sl.addr).getD []) sl.link_state n w hmem hres m hm

/-- Witness for C3: removing port 1 at the chain states leaves no DV entry
through port 1, and scrubs LS neighbor 1 from router 0's own LSDB entry. -/
theorem c3_link_removal_cleanup_witness :
    (∀ d en, lookupD (DVrouter.handle_remove_link dvC 1).1.forwarding_table d = some en →
      en.2 ≠ some 1) ∧
    (∀ m, lookupD (LSrouter.on_link_down lsChainState 1).1.link_state lsChainState.addr
        = some m → lookupD m 1 = none) :=
  ⟨c3_link_removal_cleanup.1 dvC 1 (DVrouter.dvInv_update _),
   ((c3_link_removal_cleanup.2 lsChainState 1).2 1 1 (by decide) (by decide)).1⟩

/-- Counterexample to claim C2 as stated: a link-up mutates the LSDB (it
records the new edge) but rebuilds neither the graph nor the forwarding
table — after `on_link_up` from the fresh state the stored graph is still
empty while the graph rebuilt from the LSDB has the new edge. -/
theorem c2_counterexample :
    lsFreshLink.link_state ≠ lsA.link_state ∧
    lsFreshLink.graph ≠ buildGraph lsFreshLink.link_state := by decide

/-- Amended claim C2: after advertisement acceptance and after link-down the
network graph equals the graph rebuilt from the current LSDB and the
forwarding table is the one derived from that graph; after link-up, however,
graph and forwarding table are left unchanged (stale) even though the LSDB
entry for the new neighbor was written. -/
theorem c2_graph_sync :
    (∀ (s : LSState) (port : Port) (pkt : LSPacket), pkt.kind = Packet.ROUTING →
      pkt.content.seq > (lookupD s.sequence_numbers pkt.content.src).getD (-1) →
      (LSrouter.handle_packet s port pkt).1.graph =
          buildGraph (LSrouter.handle_packet s port pkt).1.link_state ∧
        (LSrouter.handle_packet s port pkt).1.forwarding_table =
          LSrouter.deriveFT (LSrouter.handle_packet s port pkt).1.graph
            (LSrouter.handle_packet s port pkt).1.links
            (LSrouter.handle_packet s port pkt).1.addr) ∧
    (∀ (s : LSState) (port : Port),
      (LSrouter.on_link_down s port).1.graph =
          buildGraph (LSrouter.on_link_down s port).1.link_state ∧
        (LSrouter.on_link_down s port).1.forwarding_table =
          LSrouter.deriveFT (LSrouter.on_link_down s port).1.graph
            (LSrouter.on_link_down s port).1.links
            (LSrouter.on_link_down s port).1.addr) ∧
    (∀ (s : LSState) (port : Port) (endpoint : Addr) (cost : Nat),
      (LSrouter.on_link_up s port endpoint cost).1.graph = s.graph ∧
      (LSrouter.on_link_up s port endpoint cost).1.forwarding_table =
        s.forwarding_table ∧
      lookupD ((lookupD (LSrouter.on_link_up s port endpoint cost).1.link_state
        s.addr).getD []) endpoint = some cost) := by
  refine ⟨?_, ?_, ?_⟩
  · intro s port pkt hk hgt
    rw [ls_accept_eq s port pkt hk hgt]
    exact ⟨rfl, rfl⟩
  · intro s port
    exact ⟨rfl, rfl⟩
  · intro s port endpoint cost
    refine ⟨rfl, rfl, ?_⟩
    by_cases he : endpoint = s.addr
    · rw [← he]
      have h2 : lookupD (LSrouter.on_link_up s port endpoint cost).1.link_state endpoint =
          some (insertD ((lookupD (insertD s.link_state s.addr
            (insertD ((lookupD s.link_state s.addr).getD []) endpoint cost))
            endpoint).getD []) s.addr cost) :=
        lookupD_insertD_self _ _ _
      rw [h2, Option.getD_some, he]
      exact lookupD_insertD_self _ _ _
    · have hne : s.addr ≠ endpoint := fun hh => he hh.symm
      have h2 : lookupD (LSrouter.on_link_up s port endpoint cost).1.link_state s.addr =
          lookupD (insertD s.link_state s.addr
            (insertD ((lookupD s.link_state s.addr).getD []) endpoint cost)) s.addr :=
        lookupD_insertD_ne _ _ _ _ hne
      rw [h2, lookupD_insertD_self, Option.getD_some]
      exact lookupD_insertD_self _ _ _

/-- Witness for the amended C2: accepting an advertisement at `lsB` leaves the
graph in sync with the LSDB. -/
theorem c2_graph_sync_witness :
    (LSrouter.handle_packet lsB 1 ⟨Packet.ROUTING, 1, 0, ⟨1, 5, [(0, 1), (2, 1)]⟩⟩).1.graph =
      buildGraph (LSrouter.handle_packet lsB 1
        ⟨Packet.ROUTING, 1, 0, ⟨1, 5, [(0, 1), (2, 1)]⟩⟩).1.link_state :=
  (c2_graph_sync.1 lsB 1 _ rfl (by decide)).1

/-- Counterexample to claim C1 as stated: in the LS engine the stored cost is
the weight of the first-hop edge, not the shortest-path estimate.  In the
chain state 0—1—2 (unit costs), reached purely through engine operations,
router 0's entry for destination 2 carries cost 1 while the engine's own
shortest-path computation puts destination 2 at distance 2. -/
theorem c1_counterexample :
    ¬ (∀ d en, lookupD lsChainState.forwarding_table d = some en →
        (lookupD (LSrouter.dijkstraPaths lsChainState.graph lsChainState.addr) d).map
          Prod.fst = some en.2) := by
  intro h
  have h1 := h 2 (1, 1) (by decide)
  have h2 : (lookupD (LSrouter.dijkstraPaths lsChainState.graph lsChainState.addr) 2).map
      Prod.fst = some 2 := by decide
  rw [h1] at h2
  exact absurd h2 (by decide)

/-- Amended claim C1: after every operation of either engine, every
forwarding-table entry's port corresponds to a currently-registered link; the
DV entry's cost equals the engine's distance-vector estimate for the
destination, while the LS entry's cost equals the weight of the first-hop
edge toward the entry's next hop (not the full shortest-path estimate).
Stated as: both invariants hold at construction and are preserved by all four
operations (LS link-up additionally assumes the host assigns a fresh port). -/
theorem c1_forwarding_invariant :
    (∀ (a : Addr) (hb : Int), dvInv (DVrouter.init a hb)) ∧
    (∀ (s : DVState) (port : Port) (pkt : DVPacket), dvInv s →
      dvInv (DVrouter.handle_packet s port pkt).1) ∧
    (∀ (s : DVState) (port : Port) (endpoint : Addr) (cost : Nat), dvInv s →
      dvInv (DVrouter.handle_new_link s port endpoint cost).1) ∧
    (∀ (s : DVState) (port : Port), dvInv s →
      dvInv (DVrouter.handle_remove_link s port).1) ∧
    (∀ (s : DVState) (t : Int), dvInv s → dvInv (DVrouter.handle_time s t).1) ∧
    (∀ (a : Addr) (hb : Int), lsInv (LSrouter.init a hb)) ∧
    (∀ (s : LSState) (port : Port) (pkt : LSPacket), lsInv s →
      lsInv (LSrouter.handle_packet s port pkt).1) ∧
    (∀ (s : LSState) (port : Port) (endpoint : Addr) (cost : Nat), lsInv s →
      lookupD s.links port = none →
      lsInv (LSrouter.on_link_up s port endpoint cost).1) ∧
    (∀ (s : LSState) (port : Port), lsInv (LSrouter.on_link_down s port).1) ∧
    (∀ (s : LSState) (t : Int), lsInv s → lsInv (LSrouter.handle_time s t).1) := by
  refine ⟨?_, ?_, ?_, ?_, ?_, ?_, ?_, ?_, ?_, ?_⟩
  · intro a hb d c po h
    exact Option.noConfusion h
  · intro s port pkt hInv
    by_cases hk : pkt.kind = Packet.TRACEROUTE
    · rw [DVrouter.handle_packet, if_pos hk]
      cases hft : lookupD s.forwarding_table pkt.dst_addr <;> simp only [hft] <;>
        exact hInv
    · rw [DVrouter.handle_packet, if_neg hk]
      exact DVrouter.dvInv_update _
  · intro s port endpoint cost hInv
    exact DVrouter.dvInv_update _
  · intro s port hInv
    cases hl : lookupD s.links port with
    | none =>
      have heq : DVrouter.handle_remove_link s port = (s, []) := by
        rw [DVrouter.handle_remove_link, hl]
      rw [heq]
      exact hInv
    | some link =>
      have heq : (DVrouter.handle_remove_link s port).1 =
          (DVrouter.update_distance_vector
            { s with links := eraseD s.links port,
                     neighbor_vectors := eraseD s.neighbor_vectors link.1 }).2 := by
        rw [DVrouter.handle_remove_link, hl]
      rw [heq]
      exact DVrouter.dvInv_update _
  · intro s t hInv
    by_cases h : t - s.last_time ≥ s.heartbeat_time
    · rw [DVrouter.handle_time, if_pos h]
      exact hInv
    · rw [DVrouter.handle_time, if_neg h]
      exact hInv
  · intro a hb d q c h
    exact Option.noConfusion h
  · intro s port pkt hInv
    by_cases hk : pkt.kind = Packet.ROUTING
    · by_cases hgt : pkt.content.seq >
          (lookupD s.sequence_numbers pkt.content.src).getD (-1)
      · rw [ls_accept_eq s port pkt hk hgt]
        exact LSrouter.lsInv_update_graph _
      · rw [ls_stale_eq s port pkt hk hgt]
        exact hInv
    · by_cases ht : pkt.kind = Packet.TRACEROUTE
      · rw [LSrouter.handle_packet, if_neg hk, if_pos ht]
        cases hft : lookupD s.forwarding_table pkt.dst_addr <;> simp only [hft] <;>
          exact hInv
      · rw [LSrouter.handle_packet, if_neg hk, if_neg ht]
        exact hInv
  · intro s port endpoint cost hInv hfresh d q c h
    have h2 : lookupD s.forwarding_table d = some (q, c) := h
    obtain ⟨hlq, n, hn1, hn2⟩ := hInv d q c h2
    refine ⟨?_, n, ?_, ?_⟩
    · exact lookupD_insertD_isSome port ⟨s.addr, endpoint⟩ hlq
    · exact LSrouter.get_port_insertD_fresh _ hfresh hn1
    · exact hn2
  · intro s port
    exact LSrouter.lsInv_update_graph _
  · intro s t hInv
    by_cases h : t - s.last_time ≥ s.heartbeat_time
    · rw [LSrouter.handle_time, if_pos h]
      exact hInv
    · rw [LSrouter.handle_time, if_neg h]
      exact hInv

/-- Witness for the amended C1, instantiating the hypothesis-carrying
conjuncts at concrete reachable states. -/
theorem c1_forwarding_invariant_witness :
    dvInv (DVrouter.handle_time dvC 7).1 ∧
    lsInv (LSrouter.on_link_up lsChainState 2 5 3).1 ∧
    lsInv (LSrouter.handle_time lsChainState 9).1 :=
  ⟨c1_forwarding_invariant.2.2.2.2.1 dvC 7 (DVrouter.dvInv_update _),
   c1_forwarding_invariant.2.2.2.2.2.2.2.1 lsChainState 2 5 3
     (LSrouter.lsInv_update_graph _) (by decide),
   c1_forwarding_invariant.2.2.2.2.2.2.2.2.2 lsChainState 9
     (LSrouter.lsInv_update_graph _)⟩
